import Mathlib

/-!
# Form enhancer (`main.js`): payment masking, date bounds, file label, validation

A shallow embedding of the event handlers that `main.js` attaches on
`DOMContentLoaded`, followed by the properties the specification states
about them.

Text is modelled as `List Char`.  The handlers only ever test characters
for being an ASCII digit, so a character outside the Basic Multilingual
Plane (two UTF-16 code units in the browser, both of them non-digits)
behaves exactly like any other single non-digit character.
-/

namespace SmartDL

/-! ## Strings -/

/-- Text held by an input field or a label. -/
abbrev JsString := List Char

/-- The regular-expression class `\d` (without the `u` flag): `0`..`9`. -/
def isDigitChar (c : Char) : Bool := c.isDigit

/-- `value.replace(/\D/g, '')`: every character that is not `\d` is deleted. -/
def stripNonDigits (s : JsString) : JsString :=
  s.filter isDigitChar

/-- The guarded slice `if (value.length > n) { value = value.slice(0, n); }`. -/
def limitLength (n : Nat) (value : JsString) : JsString :=
  if value.length > n then value.take n else value

/-- `value.replace(/(\d{4})(?=\d)/g, '$1 ')`: scanning from the left, four
digits that are followed by a fifth digit are copied and a space is put
after them, the scan resuming at that fifth character; where the pattern
does not match, one character is copied and the scan moves on by one. -/
def insertGroupSpaces : JsString → JsString
  | a :: b :: c :: d :: e :: rest =>
    if isDigitChar a && isDigitChar b && isDigitChar c && isDigitChar d && isDigitChar e then
      a :: b :: c :: d :: ' ' :: insertGroupSpaces (e :: rest)
    else
      a :: insertGroupSpaces (b :: c :: d :: e :: rest)
  | a :: rest => a :: insertGroupSpaces rest
  | [] => []

/-- White space and line terminators, the characters `String.prototype.trim`
removes. -/
def isTrimChar (c : Char) : Bool :=
  let n := c.toNat
  n = 0x09 || n = 0x0A || n = 0x0B || n = 0x0C || n = 0x0D || n = 0x20 || n = 0xA0 ||
  n = 0x1680 || (0x2000 ≤ n && n ≤ 0x200A) || n = 0x2028 || n = 0x2029 || n = 0x202F ||
  n = 0x205F || n = 0x3000 || n = 0xFEFF

/-- `s.trim()`. -/
def jsTrim (s : JsString) : JsString :=
  ((s.dropWhile isTrimChar).reverse.dropWhile isTrimChar).reverse

/-! ## Payment input maskers -/

/-- The `input` listener of `#card_number`: the new field value as a function
of the current one. -/
def cardNumberInput_onInput (fieldValue : JsString) : JsString :=
  let value := stripNonDigits fieldValue
  let value := limitLength 16 value
  jsTrim (insertGroupSpaces value)

/-- The `input` listener of `#expiry_date`. -/
def cardExpiryInput_onInput (fieldValue : JsString) : JsString :=
  let value := stripNonDigits fieldValue
  let value := limitLength 4 value
  if value.length > 2 then value.take 2 ++ '/' :: value.drop 2 else value

/-- The `input` listener of `#cvv`. -/
def cardCvvInput_onInput (fieldValue : JsString) : JsString :=
  let value := stripNonDigits fieldValue
  let value := limitLength 3 value
  value

/-- The text cut from the left into pieces of four characters, the last piece holding the
one to four characters that remain. -/
def groupsOfFour : JsString → List JsString
  | a :: b :: c :: d :: e :: rest => [a, b, c, d] :: groupsOfFour (e :: rest)
  | [] => []
  | a :: rest => [a :: rest]

/-! ## Validation activator -/

/-- The methods the submit listener calls on its event. -/
inductive EventCall
  | preventDefault
  | stopPropagation
  deriving DecidableEq, Repr

/-- A submit event, as seen by the listener: the calls made on it so far, oldest first. -/
structure SubmitEvent where
  calls : List EventCall
  deriving DecidableEq, Repr

/-- A form carrying the class `needs-validation`: what `checkValidity()` returns for its
current content, and the tokens of its `classList` in order. -/
structure Form where
  checkValidity : Bool
  classList : List JsString
  deriving DecidableEq, Repr

/-- `classList.add(token)`: the token is appended unless it is already in the list. -/
def classList_add (classList : List JsString) (token : JsString) : List JsString :=
  if token ∈ classList then classList else classList ++ [token]

/-- The `submit` listener of a `.needs-validation` form. -/
def form_onSubmit (form : Form) (event : SubmitEvent) : Form × SubmitEvent :=
  let event :=
    if !form.checkValidity then
      { event with calls := event.calls ++ [EventCall.preventDefault, EventCall.stopPropagation] }
    else event
  ({ form with classList := classList_add form.classList "was-validated".toList }, event)

/-! ## File label updater -/

/-- A `File` of the picker's `FileList`; the listener reads only its `name`. -/
structure File where
  name : JsString
  deriving DecidableEq, Repr

/-- What `this.files[0]?.name` evaluates to: `none` stands for `undefined`. -/
def firstFileName (files : List File) : Option JsString :=
  match files with
  | [] => none
  | file :: _ => some file.name

/-- The file picker `#document` with its label `#document-label`: the picker's `files` and the
label's `textContent`. -/
structure FilePicker where
  files : List File
  labelText : JsString
  deriving DecidableEq, Repr

/-- The `change` listener of `#document`.  `if (fileName)` takes the else branch both for
`undefined` and for the empty string. -/
def fileInput_onChange (picker : FilePicker) : FilePicker :=
  match firstFileName picker.files with
  | some fileName =>
    if fileName ≠ [] then { picker with labelText := fileName }
    else { picker with labelText := "Choose file".toList }
  | none => { picker with labelText := "Choose file".toList }

/-! ## Dates

`Date` follows ECMA-262 (sections "Time Values and Time Range" to "Date Objects").  A time
value is a number of milliseconds since the epoch in UTC, or `NaN`; numbers that can be
`NaN` are modelled as `Option Int`, `none` being `NaN`.  All the integers that occur are
below `2 ^ 53` in absolute value, so the arithmetic on them is exact. -/

/-- `msPerDay`. -/
def msPerDay : Int := 86400000

/-- `Day(t)`, the day number of a time value: `floor(t / msPerDay)`. -/
def Day (t : Int) : Int := t / msPerDay

/-- `TimeWithinDay(t)`: `t modulo msPerDay`. -/
def TimeWithinDay (t : Int) : Int := t % msPerDay

/-- `DaysInYear(y)`. -/
def DaysInYear (y : Int) : Int :=
  if y % 4 ≠ 0 then 365
  else if y % 100 ≠ 0 then 366
  else if y % 400 ≠ 0 then 365
  else 366

/-- `DayFromYear(y)`, the day number of the first day of year `y`. -/
def DayFromYear (y : Int) : Int :=
  365 * (y - 1970) + (y - 1969) / 4 - (y - 1901) / 100 + (y - 1601) / 400

/-- The year a day number falls in, found by counting whole cycles of 400, 100, 4 and 1
years from 1 January 1601.  `yearFromDay_largest` shows that it is the largest `y` with
`DayFromYear y ≤ day`, which is how ECMA-262 defines `YearFromTime`. -/
def yearFromDay (day : Int) : Int :=
  let n := day + 134774
  let c400 := n / 146097
  let r400 := n % 146097
  let c100 := min (r400 / 36524) 3
  let r100 := r400 - c100 * 36524
  let c4 := r100 / 1461
  let r4 := r100 % 1461
  let c1 := min (r4 / 365) 3
  1601 + 400 * c400 + 100 * c100 + 4 * c4 + c1

/-- `YearFromTime(t)`. -/
def YearFromTime (t : Int) : Int := yearFromDay (Day t)

/-- `InLeapYear(t)`: 1 in a leap year, else 0. -/
def InLeapYear (t : Int) : Int :=
  if DaysInYear (YearFromTime t) = 366 then 1 else 0

/-- `DayWithinYear(t)`. -/
def DayWithinYear (t : Int) : Int := Day t - DayFromYear (YearFromTime t)

/-- The table of `MonthFromTime`: the month (0 for January to 11 for December) of the day
numbered `d` within its year, `leap` being 1 in a leap year and 0 otherwise. -/
def monthOfYearDay (d leap : Int) : Int :=
  if d < 31 then 0
  else if d < 59 + leap then 1
  else if d < 90 + leap then 2
  else if d < 120 + leap then 3
  else if d < 151 + leap then 4
  else if d < 181 + leap then 5
  else if d < 212 + leap then 6
  else if d < 243 + leap then 7
  else if d < 273 + leap then 8
  else if d < 304 + leap then 9
  else if d < 334 + leap then 10
  else 11

/-- The table of `DateFromTime`: the day of the month, from 1, of the day numbered `d`
within its year. -/
def dateOfYearDay (d leap : Int) : Int :=
  let m := monthOfYearDay d leap
  if m = 0 then d + 1
  else if m = 1 then d - 30
  else if m = 2 then d - 58 - leap
  else if m = 3 then d - 89 - leap
  else if m = 4 then d - 119 - leap
  else if m = 5 then d - 150 - leap
  else if m = 6 then d - 180 - leap
  else if m = 7 then d - 211 - leap
  else if m = 8 then d - 242 - leap
  else if m = 9 then d - 272 - leap
  else if m = 10 then d - 303 - leap
  else d - 333 - leap

/-- `MonthFromTime(t)`. -/
def MonthFromTime (t : Int) : Int :=
  monthOfYearDay (DayWithinYear t) (InLeapYear t)

/-- `DateFromTime(t)`. -/
def DateFromTime (t : Int) : Int :=
  dateOfYearDay (DayWithinYear t) (InLeapYear t)

/-- Days of the year that precede month `mn` (0 to 11); `leap` is 1 in a leap year. -/
def daysBeforeMonth (mn leap : Int) : Int :=
  if mn = 0 then 0
  else if mn = 1 then 31
  else if mn = 2 then 59 + leap
  else if mn = 3 then 90 + leap
  else if mn = 4 then 120 + leap
  else if mn = 5 then 151 + leap
  else if mn = 6 then 181 + leap
  else if mn = 7 then 212 + leap
  else if mn = 8 then 243 + leap
  else if mn = 9 then 273 + leap
  else if mn = 10 then 304 + leap
  else 334 + leap

/-- `MakeDay(year, month, date)`: with `ym = year + floor(month / 12)` and
`mn = month modulo 12`, the day number of the first day of month `mn` of year `ym`
(`MakeDay_first_of_month` shows it is that day), plus `date - 1`. -/
def MakeDay (year month date : Int) : Int :=
  let ym := year + month / 12
  let mn := month % 12
  let leap := if DaysInYear ym = 366 then 1 else 0
  DayFromYear ym + daysBeforeMonth mn leap + date - 1

/-- `MakeDate(day, time)`. -/
def MakeDate (day time : Int) : Int := day * msPerDay + time

/-- The host's time zone, the `LocalTZA(t, isUTC)` of ECMA-262, in milliseconds:
`offsetAtUTC t` is the offset of local time from UTC at the UTC time value `t`, and
`offsetAtLocal t` the offset to use for the local time value `t` (for a local time that a
clock change skips, the offset before the change). -/
structure TimeZone where
  offsetAtUTC : Int → Int
  offsetAtLocal : Int → Int

/-- A zone whose offset from UTC never changes. -/
def TimeZone.fixed (offset : Int) : TimeZone :=
  { offsetAtUTC := fun _ => offset, offsetAtLocal := fun _ => offset }

/-- The zone `Pacific/Apia` around the end of 2011: ten hours behind UTC until the end of
29 December 2011 (10:00 UTC on 30 December), fourteen hours ahead from then on, so that
the local calendar has no 30 December 2011. -/
def TimeZone.apia2011 : TimeZone :=
  { offsetAtUTC := fun t => if t < 1325239200000 then -36000000 else 50400000
    offsetAtLocal := fun t => if t < 1325289600000 then -36000000 else 50400000 }

/-- `LocalTime(t)`. -/
def LocalTime (tz : TimeZone) (t : Int) : Int := t + tz.offsetAtUTC t

/-- `UTC(t)`. -/
def UTC (tz : TimeZone) (t : Int) : Int := t - tz.offsetAtLocal t

/-- `TimeClip(time)`: `NaN` beyond 8.64e15 milliseconds from the epoch. -/
def TimeClip (time : Int) : Option Int :=
  if time < -8640000000000000 ∨ 8640000000000000 < time then none else some time

/-- A `Date` object, by its time value (its `[[DateValue]]`); `none` is an Invalid Date. -/
structure Date where
  timeValue : Option Int
  deriving DecidableEq, Repr

/-- `new Date(tv)` for a number `tv`; `new Date()` is this at the reading of the clock. -/
def Date.ofTimeValue (tv : Int) : Date :=
  ⟨TimeClip tv⟩

/-- `new Date(date)`, a copy of a `Date`. -/
def Date.copy (date : Date) : Date :=
  ⟨date.timeValue.bind TimeClip⟩

/-- `new Date(year, monthIndex, day)` for a year outside 0..99: local midnight of that day. -/
def Date.ofComponents (tz : TimeZone) (year monthIndex day : Int) : Date :=
  ⟨TimeClip (UTC tz (MakeDate (MakeDay year monthIndex day) 0))⟩

/-- `date.getFullYear()`: `NaN` for an Invalid Date. -/
def Date.getFullYear (tz : TimeZone) (date : Date) : Option Int :=
  date.timeValue.map (fun t => YearFromTime (LocalTime tz t))

/-- `date.getMonth()`. -/
def Date.getMonth (tz : TimeZone) (date : Date) : Option Int :=
  date.timeValue.map (fun t => MonthFromTime (LocalTime tz t))

/-- `date.getDate()`. -/
def Date.getDate (tz : TimeZone) (date : Date) : Option Int :=
  date.timeValue.map (fun t => DateFromTime (LocalTime tz t))

/-- `date.setDate(dt)`: an Invalid Date stays invalid and a `NaN` argument makes the date
invalid; otherwise the day is rebuilt in local time from the date's year and month and
`dt`, the time within the day is kept, and the result is brought back to UTC and clipped. -/
def Date.setDate (tz : TimeZone) (date : Date) (dt : Option Int) : Date :=
  match date.timeValue, dt with
  | some tv, some dt =>
    let t := LocalTime tz tv
    let newDate := MakeDate (MakeDay (YearFromTime t) (MonthFromTime t) dt) (TimeWithinDay t)
    ⟨TimeClip (UTC tz newDate)⟩
  | _, _ => ⟨none⟩

/-- `String(n)` for an integer `n`: its decimal digits, after a `-` when negative. -/
def numberToString (n : Int) : JsString :=
  if n < 0 then '-' :: Nat.toDigits 10 n.natAbs else Nat.toDigits 10 n.toNat

/-- `String(n)` for a number that is an integer or `NaN`. -/
def jsNumberToString : Option Int → JsString
  | some n => numberToString n
  | none => "NaN".toList

/-- `s.padStart(targetLength, fill)` for a one-character `fill`. -/
def padStart (s : JsString) (targetLength : Nat) (fill : Char) : JsString :=
  if s.length ≥ targetLength then s else List.replicate (targetLength - s.length) fill ++ s

/-- The arrow function `formatDate`. -/
def formatDate (tz : TimeZone) (date : Date) : JsString :=
  let year := date.getFullYear tz
  let month := padStart (jsNumberToString ((date.getMonth tz).map (fun m => m + 1))) 2 '0'
  let day := padStart (jsNumberToString (date.getDate tz)) 2 '0'
  jsNumberToString year ++ '-' :: month ++ '-' :: day

/-- The attributes `min` and `max` of the date field `#test_date`; `none` is an attribute
that is not set. -/
structure DateInput where
  min : Option JsString
  max : Option JsString
  deriving DecidableEq, Repr

/-- The date-bounds block of the initialisation: `today` is what `new Date()` returned and
`testDateInput` what `getElementById('test_date')` returned (`none` for `null`). -/
def initTestDate (tz : TimeZone) (today : Date) (testDateInput : Option DateInput) :
    Option DateInput :=
  match testDateInput with
  | some input =>
    let minDate : Date := today.copy
    let minDate := minDate.setDate tz ((today.getDate tz).map (fun d => d + 7))
    let maxDate : Date := today.copy
    let maxDate := maxDate.setDate tz ((today.getDate tz).map (fun d => d + 60))
    let input := { input with min := some (formatDate tz minDate) }
    let input := { input with max := some (formatDate tz maxDate) }
    some input
  | none => none

/-! ### The calendar, for stating what the dates should be -/

/-- A day of the Gregorian calendar: year, month (1 to 12) and day of the month. -/
structure CalendarDate where
  year : Int
  month : Int
  day : Int
  deriving DecidableEq, Repr

/-- Leap years: divisible by 4 and not by 100, or divisible by 400. -/
def isLeapYear (year : Int) : Bool :=
  (year % 4 = 0 && year % 100 ≠ 0) || year % 400 = 0

/-- Length of a month. -/
def daysInMonth (year month : Int) : Int :=
  if month = 2 then (if isLeapYear year then 29 else 28)
  else if month = 4 ∨ month = 6 ∨ month = 9 ∨ month = 11 then 30
  else 31

/-- The calendar day after `c`. -/
def nextDay (c : CalendarDate) : CalendarDate :=
  if c.day < daysInMonth c.year c.month then { c with day := c.day + 1 }
  else if c.month < 12 then { year := c.year, month := c.month + 1, day := 1 }
  else { year := c.year + 1, month := 1, day := 1 }

/-- The calendar day `n` days after `c`. -/
def addDays (n : Nat) (c : CalendarDate) : CalendarDate :=
  nextDay^[n] c

/-- The calendar day on which the local time value `t` falls. -/
def calendarOf (t : Int) : CalendarDate :=
  { year := YearFromTime t, month := MonthFromTime t + 1, day := DateFromTime t }

/-- The calendar day a `Date` shows through its getters in the zone; none for an Invalid
Date. -/
def Date.calendarDate (tz : TimeZone) (date : Date) : Option CalendarDate :=
  date.timeValue.map (fun t => calendarOf (LocalTime tz t))

/-- The zone's clocks show the local time value `x`, and `Date` can hold its instant: going
to UTC stays within the range of `TimeClip`, and coming back gives `x` again (which fails
for a local time that a clock change skips). -/
def TimeZone.shows (tz : TimeZone) (x : Int) : Prop :=
  TimeClip (UTC tz x) = some (UTC tz x) ∧ LocalTime tz (UTC tz x) = x

instance TimeZone.shows_decidable (tz : TimeZone) (x : Int) : Decidable (tz.shows x) := by
  unfold TimeZone.shows
  infer_instance

/-- Two decimal digits of a number below 100, with a leading zero below 10. -/
def twoDigits (n : Nat) : JsString :=
  [Nat.digitChar (n / 10), Nat.digitChar (n % 10)]

/-- Four decimal digits of a number below 10000. -/
def fourDigits (n : Nat) : JsString :=
  [Nat.digitChar (n / 1000), Nat.digitChar (n / 100 % 10), Nat.digitChar (n / 10 % 10),
    Nat.digitChar (n % 10)]

/-! ## Chunks of four, as the specification words them -/

/-- The text split into consecutive chunks of 4 characters: chunk `i` holds the characters at
positions `4 * i` to `4 * i + 3`, the last chunk whatever remains. -/
def chunksOfFour_spec (v : JsString) : List JsString :=
  (List.range ((v.length + 3) / 4)).map (fun i => (v.drop (4 * i)).take 4)

/-- The chunks of 4 joined with a single space. -/
def joinChunks_spec (v : JsString) : JsString :=
  [' '].intercalate (chunksOfFour_spec v)

/-! ### Orders on calendar days and on strings -/

/-- Calendar day `a` comes before calendar day `b`. -/
def calendarBefore (a b : CalendarDate) : Prop :=
  a.year < b.year ∨
    (a.year = b.year ∧ (a.month < b.month ∨ (a.month = b.month ∧ a.day < b.day)))

instance calendarBefore_decidable (a b : CalendarDate) : Decidable (calendarBefore a b) := by
  unfold calendarBefore
  infer_instance

/-- The comparison `a < b` of two strings: lexicographic, character codes compared as
numbers; a proper prefix comes first. -/
def stringLt : JsString → JsString → Bool
  | _, [] => false
  | [], _ :: _ => true
  | a :: as, b :: bs =>
    decide (a.toNat < b.toNat) || (decide (a.toNat = b.toNat) && stringLt as bs)

/-! ## The page and the initialisation as a whole -/

/-- The error of calling a method on `null`. -/
inductive JsError
  | typeError
  deriving DecidableEq, Repr

/-- What the script's lookups find in the document, each element by the part of its state the
script reads or writes; `none` is a lookup that returned `null`.  `forms` are the elements
found by `querySelectorAll('.needs-validation')`; the others are found by `getElementById`:
`#document` (its `files`), `#document-preview`, `#document-label` (its `textContent`),
`#test_date` (its `min` and `max`), `#payment-form`, and `#card_number`, `#expiry_date` and
`#cvv` (their `value`). -/
structure Page where
  forms : List Form
  fileInput : Option (List File)
  filePreview : Option Unit
  fileLabel : Option JsString
  testDateInput : Option DateInput
  paymentForm : Option Unit
  cardNumberInput : Option JsString
  cardExpiryInput : Option JsString
  cardCvvInput : Option JsString
  deriving DecidableEq, Repr

/-- The listeners registered by the initialisation: the number of flagged forms given a
`submit` listener (they are served in document order), and whether the `change` listener of
`#document` and the `input` listeners of `#card_number`, `#expiry_date` and `#cvv` exist. -/
structure Listeners where
  formSubmit : Nat
  fileChange : Bool
  cardNumberInput : Bool
  cardExpiryInput : Bool
  cardCvvInput : Bool
  deriving DecidableEq, Repr

/-- Using a looked-up element as the receiver of a method call (`addEventListener`,
`setAttribute`): a `TypeError` when the lookup returned `null`. -/
def receiver {α : Type} : Option α → Except JsError α
  | some element => Except.ok element
  | none => Except.error JsError.typeError

/-- The listener of `DOMContentLoaded`: the page after it has run and the listeners it has
registered, or the error it stopped with.  `tz` is the host's time zone and `today` what
`new Date()` returns. -/
def initPage (tz : TimeZone) (today : Date) (page : Page) :
    Except JsError (Page × Listeners) := do
  let formSubmit := page.forms.length
  let fileChange ←
    if page.fileInput.isSome && page.fileLabel.isSome then do
      let _ ← receiver page.fileInput
      pure true
    else pure false
  let testDateInput ←
    if page.testDateInput.isSome then do
      let minDate : Date := today.copy
      let minDate := minDate.setDate tz ((today.getDate tz).map (fun d => d + 7))
      let maxDate : Date := today.copy
      let maxDate := maxDate.setDate tz ((today.getDate tz).map (fun d => d + 60))
      let input ← receiver page.testDateInput
      let input := { input with min := some (formatDate tz minDate) }
      let input := { input with max := some (formatDate tz maxDate) }
      pure (some input)
    else pure page.testDateInput
  let (cardNumberInput, cardExpiryInput, cardCvvInput) ←
    if page.paymentForm.isSome then do
      let cardNumberInput ←
        if page.cardNumberInput.isSome then do
          let _ ← receiver page.cardNumberInput
          pure true
        else pure false
      let cardExpiryInput ←
        if page.cardExpiryInput.isSome then do
          let _ ← receiver page.cardExpiryInput
          pure true
        else pure false
      let cardCvvInput ←
        if page.cardCvvInput.isSome then do
          let _ ← receiver page.cardCvvInput
          pure true
        else pure false
      pure (cardNumberInput, cardExpiryInput, cardCvvInput)
    else pure (false, false, false)
  pure ({ page with testDateInput := testDateInput },
    { formSubmit := formSubmit, fileChange := fileChange, cardNumberInput := cardNumberInput,
      cardExpiryInput := cardExpiryInput, cardCvvInput := cardCvvInput })

/-- The events the registered listeners react to. -/
inductive PageEvent
  | fileChange
  | cardNumberInput
  | cardExpiryInput
  | cardCvvInput
  deriving DecidableEq, Repr

/-- The page after an event has been delivered: the listener runs if it was registered, with
`this` the element the event fired on.  The `change` listener reads `this.files` and writes
`fileLabel.textContent`; each `input` listener reads and writes `this.value`. -/
def dispatch (listeners : Listeners) (event : PageEvent) (page : Page) : Page :=
  match event with
  | PageEvent.fileChange =>
    match listeners.fileChange, page.fileInput, page.fileLabel with
    | true, some files, some labelText =>
      { page with
        fileLabel := some (fileInput_onChange { files := files, labelText := labelText }).labelText }
    | _, _, _ => page
  | PageEvent.cardNumberInput =>
    match listeners.cardNumberInput, page.cardNumberInput with
    | true, some value => { page with cardNumberInput := some (cardNumberInput_onInput value) }
    | _, _ => page
  | PageEvent.cardExpiryInput =>
    match listeners.cardExpiryInput, page.cardExpiryInput with
    | true, some value => { page with cardExpiryInput := some (cardExpiryInput_onInput value) }
    | _, _ => page
  | PageEvent.cardCvvInput =>
    match listeners.cardCvvInput, page.cardCvvInput with
    | true, some value => { page with cardCvvInput := some (cardCvvInput_onInput value) }
    | _, _ => page

/-- A page that has the `#card_number` field, holding `12345`, and nothing else; in
particular no `#payment-form`. -/
def cardNumberOnlyPage : Page :=
  { forms := [], fileInput := none, filePreview := none, fileLabel := none,
    testDateInput := none, paymentForm := none, cardNumberInput := some "12345".toList,
    cardExpiryInput := none, cardCvvInput := none }

/-! ## Facts about characters and the masking steps -/

theorem isDigitChar_iff (c : Char) : isDigitChar c = true ↔ 48 ≤ c.toNat ∧ c.toNat ≤ 57 := by
  simp only [isDigitChar, Char.isDigit, Char.toNat, Bool.and_eq_true, decide_eq_true_eq, ge_iff_le,
    UInt32.le_def, Fin.le_def]
  rfl

theorem isTrimChar_of_digit {c : Char} (h : isDigitChar c = true) : isTrimChar c = false := by
  rw [isDigitChar_iff] at h
  simp only [isTrimChar, Bool.or_eq_false_iff, decide_eq_false_iff_not, Bool.and_eq_false_imp,
    decide_eq_true_eq]
  omega

theorem ne_space_of_digit {c : Char} (h : isDigitChar c = true) : c ≠ ' ' := by
  rintro rfl
  exact absurd h (by decide)

theorem digit_mem_chars {c : Char} (h : isDigitChar c = true) : c ∈ "0123456789".toList := by
  rw [isDigitChar_iff] at h
  obtain ⟨h1, h2⟩ := h
  have : c = Char.ofNat c.toNat := by simp
  rw [this]
  generalize c.toNat = n at h1 h2
  interval_cases n <;> decide

theorem limitLength_eq_take (n : Nat) (v : JsString) : limitLength n v = v.take n := by
  unfold limitLength
  split
  · rfl
  · exact (List.take_of_length_le (by omega)).symm

theorem limitLength_of_le {n : Nat} {v : JsString} (h : v.length ≤ n) : limitLength n v = v := by
  rw [limitLength_eq_take, List.take_of_length_le h]

theorem keptDigits_digit (n : Nat) (s : JsString) :
    ∀ c ∈ limitLength n (stripNonDigits s), isDigitChar c = true := by
  intro c hc
  rw [limitLength_eq_take] at hc
  exact (List.mem_filter.mp (List.mem_of_mem_take hc)).2

theorem keptDigits_length (n : Nat) (s : JsString) :
    (limitLength n (stripNonDigits s)).length ≤ n := by
  rw [limitLength_eq_take]
  exact List.length_take_le _ _

theorem stripNonDigits_of_digits {d : JsString} (hd : ∀ c ∈ d, isDigitChar c = true) :
    stripNonDigits d = d :=
  List.filter_eq_self.mpr hd

theorem insertGroupSpaces_short : ∀ l : JsString, l.length ≤ 4 → insertGroupSpaces l = l
  | [], _ => by simp [insertGroupSpaces]
  | [a], _ => by simp [insertGroupSpaces]
  | [a, b], _ => by simp [insertGroupSpaces]
  | [a, b, c], _ => by simp [insertGroupSpaces]
  | [a, b, c, d], _ => by simp [insertGroupSpaces]
  | _ :: _ :: _ :: _ :: _ :: _, h => by simp at h

theorem insertGroupSpaces_five {a b c d e : Char} {rest : JsString}
    (h : ∀ x ∈ a :: b :: c :: d :: e :: rest, isDigitChar x = true) :
    insertGroupSpaces (a :: b :: c :: d :: e :: rest) =
      a :: b :: c :: d :: ' ' :: insertGroupSpaces (e :: rest) := by
  have ha := h a (by simp)
  have hb := h b (by simp)
  have hc := h c (by simp)
  have hd := h d (by simp)
  have he := h e (by simp)
  simp [insertGroupSpaces, ha, hb, hc, hd, he]

/-- Induction along the groups of a digit string: the empty string, a string of one to four
digits, and four digits followed by a non-empty digit string. -/
theorem digits_group_induction {motive : JsString → Prop}
    (nil : motive [])
    (short : ∀ a l, (a :: l).length ≤ 4 → (∀ x ∈ a :: l, isDigitChar x = true) → motive (a :: l))
    (step : ∀ a b c d e rest, (∀ x ∈ a :: b :: c :: d :: e :: rest, isDigitChar x = true) →
      motive (e :: rest) → motive (a :: b :: c :: d :: e :: rest))
    (v : JsString) (hv : ∀ x ∈ v, isDigitChar x = true) : motive v := by
  induction v using groupsOfFour.induct with
  | case1 a b c d e rest ih =>
    exact step a b c d e rest hv (ih (fun x hx => hv x (by
      simp only [List.mem_cons] at hx ⊢; tauto)))
  | case2 => exact nil
  | case3 a rest hne =>
    refine short a rest ?_ hv
    match rest, hne with
    | [], _ => simp
    | [b], _ => simp
    | [b, c], _ => simp
    | [b, c, d], _ => simp
    | b :: c :: d :: e :: rest, hne => exact absurd rfl (hne b c d e rest)

theorem insertGroupSpaces_head (a : Char) (l : JsString) :
    (insertGroupSpaces (a :: l)).head? = some a := by
  match l with
  | [] => simp [insertGroupSpaces]
  | [b] => simp [insertGroupSpaces]
  | [b, c] => simp [insertGroupSpaces]
  | [b, c, d] => simp [insertGroupSpaces]
  | b :: c :: d :: e :: rest =>
    simp only [insertGroupSpaces]
    split <;> simp

theorem insertGroupSpaces_eq_nil (l : JsString) : insertGroupSpaces l = [] ↔ l = [] := by
  cases l with
  | nil => simp [insertGroupSpaces]
  | cons a l =>
    have := insertGroupSpaces_head a l
    constructor
    · intro h; rw [h] at this; simp at this
    · intro h; simp at h

theorem insertGroupSpaces_getLast (v : JsString) (hv : ∀ x ∈ v, isDigitChar x = true) :
    (insertGroupSpaces v).getLast? = v.getLast? := by
  refine digits_group_induction (motive := fun v => (insertGroupSpaces v).getLast? = v.getLast?)
    ?_ ?_ ?_ v hv
  · simp [insertGroupSpaces]
  · intro a l hl _
    rw [insertGroupSpaces_short _ hl]
  · intro a b c d e rest h ih
    rw [insertGroupSpaces_five h]
    obtain ⟨x, xs, hx⟩ := List.exists_cons_of_ne_nil
      (mt (insertGroupSpaces_eq_nil (e :: rest)).mp (List.cons_ne_nil e rest))
    rw [hx] at ih ⊢
    simp only [List.getLast?_cons_cons]
    exact ih

theorem insertGroupSpaces_filter (p : Char → Bool) (hp : p ' ' = false)
    (v : JsString) (hv : ∀ x ∈ v, isDigitChar x = true) :
    (insertGroupSpaces v).filter p = v.filter p := by
  refine digits_group_induction (motive := fun v => (insertGroupSpaces v).filter p = v.filter p)
    ?_ ?_ ?_ v hv
  · simp [insertGroupSpaces]
  · intro a l hl _
    rw [insertGroupSpaces_short _ hl]
  · intro a b c d e rest h ih
    rw [insertGroupSpaces_five h]
    simp only [List.filter_cons, hp, ih]
    simp

theorem insertGroupSpaces_mem (v : JsString) (hv : ∀ x ∈ v, isDigitChar x = true) :
    ∀ x ∈ insertGroupSpaces v, isDigitChar x = true ∨ x = ' ' := by
  refine digits_group_induction
    (motive := fun v => ∀ x ∈ insertGroupSpaces v, isDigitChar x = true ∨ x = ' ') ?_ ?_ ?_ v hv
  · simp [insertGroupSpaces]
  · intro a l hl h x hx
    rw [insertGroupSpaces_short _ hl] at hx
    exact Or.inl (h x hx)
  · intro a b c d e rest h ih x hx
    rw [insertGroupSpaces_five h] at hx
    simp only [List.mem_cons] at hx
    rcases hx with rfl | rfl | rfl | rfl | rfl | hx
    · exact Or.inl (h _ (by simp))
    · exact Or.inl (h _ (by simp))
    · exact Or.inl (h _ (by simp))
    · exact Or.inl (h _ (by simp))
    · exact Or.inr rfl
    · exact ih x hx

theorem jsTrim_eq_self {l : JsString} (hh : ∀ c, l.head? = some c → isTrimChar c = false)
    (hl : ∀ c, l.getLast? = some c → isTrimChar c = false) : jsTrim l = l := by
  unfold jsTrim
  have h1 : l.dropWhile isTrimChar = l := by
    cases l with
    | nil => rfl
    | cons a t => simp [List.dropWhile_cons, hh a (by simp)]
  rw [h1]
  have h2 : l.reverse.dropWhile isTrimChar = l.reverse := by
    cases hr : l.reverse with
    | nil => rfl
    | cons a t =>
      have : l.getLast? = some a := by
        rw [List.getLast?_eq_head?_reverse, hr]; rfl
      simp [List.dropWhile_cons, hl a this]
  rw [h2, List.reverse_reverse]

theorem jsTrim_insertGroupSpaces (v : JsString) (hv : ∀ x ∈ v, isDigitChar x = true) :
    jsTrim (insertGroupSpaces v) = insertGroupSpaces v := by
  apply jsTrim_eq_self
  · intro c hc
    cases v with
    | nil => simp [insertGroupSpaces] at hc
    | cons a l =>
      rw [insertGroupSpaces_head] at hc
      cases hc
      exact isTrimChar_of_digit (hv _ (by simp))
  · intro c hc
    rw [insertGroupSpaces_getLast v hv] at hc
    exact isTrimChar_of_digit (hv c (List.mem_of_getLast?_eq_some hc))

theorem cardNumberInput_onInput_eq (s : JsString) :
    cardNumberInput_onInput s = insertGroupSpaces ((stripNonDigits s).take 16) := by
  unfold cardNumberInput_onInput
  simp only
  rw [jsTrim_insertGroupSpaces _ (keptDigits_digit 16 s), limitLength_eq_take]
theorem groups_induction {motive : JsString → Prop}
    (nil : motive [])
    (short : ∀ a l, (a :: l).length ≤ 4 → motive (a :: l))
    (step : ∀ a b c d e rest, motive (e :: rest) → motive (a :: b :: c :: d :: e :: rest))
    (v : JsString) : motive v := by
  induction v using groupsOfFour.induct with
  | case1 a b c d e rest ih => exact step a b c d e rest ih
  | case2 => exact nil
  | case3 a rest hne =>
    refine short a rest ?_
    match rest, hne with
    | [], _ => simp
    | [b], _ => simp
    | [b, c], _ => simp
    | [b, c, d], _ => simp
    | b :: c :: d :: e :: rest, hne => exact absurd rfl (hne b c d e rest)

theorem groupsOfFour_short : ∀ (a : Char) (l : JsString), (a :: l).length ≤ 4 →
    groupsOfFour (a :: l) = [a :: l]
  | a, [], _ => by simp [groupsOfFour]
  | a, [b], _ => by simp [groupsOfFour]
  | a, [b, c], _ => by simp [groupsOfFour]
  | a, [b, c, d], _ => by simp [groupsOfFour]
  | _, _ :: _ :: _ :: _ :: _, h => by simp at h

theorem groupsOfFour_five (a b c d e : Char) (rest : JsString) :
    groupsOfFour (a :: b :: c :: d :: e :: rest) = [a, b, c, d] :: groupsOfFour (e :: rest) := by
  simp [groupsOfFour]

theorem groupsOfFour_ne_nil (a : Char) (l : JsString) : groupsOfFour (a :: l) ≠ [] := by
  match l with
  | [] => simp [groupsOfFour]
  | [b] => simp [groupsOfFour]
  | [b, c] => simp [groupsOfFour]
  | [b, c, d] => simp [groupsOfFour]
  | b :: c :: d :: e :: rest => simp [groupsOfFour]

theorem groupsOfFour_flatten (v : JsString) : (groupsOfFour v).flatten = v := by
  refine groups_induction (motive := fun v => (groupsOfFour v).flatten = v) ?_ ?_ ?_ v
  · simp [groupsOfFour]
  · intro a l h
    simp [groupsOfFour_short a l h]
  · intro a b c d e rest ih
    simp [groupsOfFour_five, ih]

theorem groupsOfFour_group_length (v : JsString) :
    ∀ g ∈ groupsOfFour v, 1 ≤ g.length ∧ g.length ≤ 4 := by
  refine groups_induction
    (motive := fun v => ∀ g ∈ groupsOfFour v, 1 ≤ g.length ∧ g.length ≤ 4) ?_ ?_ ?_ v
  · simp [groupsOfFour]
  · intro a l h g hg
    rw [groupsOfFour_short a l h] at hg
    simp only [List.mem_singleton] at hg
    subst hg
    exact ⟨by simp, h⟩
  · intro a b c d e rest ih g hg
    rw [groupsOfFour_five] at hg
    rcases List.mem_cons.mp hg with rfl | hg
    · simp
    · exact ih g hg

theorem groupsOfFour_dropLast (v : JsString) :
    ∀ g ∈ (groupsOfFour v).dropLast, g.length = 4 := by
  refine groups_induction
    (motive := fun v => ∀ g ∈ (groupsOfFour v).dropLast, g.length = 4) ?_ ?_ ?_ v
  · simp [groupsOfFour]
  · intro a l h g hg
    rw [groupsOfFour_short a l h] at hg
    simp at hg
  · intro a b c d e rest ih g hg
    rw [groupsOfFour_five] at hg
    obtain ⟨x, xs, hx⟩ := List.exists_cons_of_ne_nil (groupsOfFour_ne_nil e rest)
    rw [hx, List.dropLast_cons₂] at hg
    rcases List.mem_cons.mp hg with rfl | hg
    · simp
    · exact ih g (hx ▸ hg)

theorem groupsOfFour_length (v : JsString) : 4 * (groupsOfFour v).length ≤ v.length + 3 := by
  refine groups_induction
    (motive := fun v => 4 * (groupsOfFour v).length ≤ v.length + 3) ?_ ?_ ?_ v
  · simp [groupsOfFour]
  · intro a l h
    rw [groupsOfFour_short a l h]
    simp
  · intro a b c d e rest ih
    rw [groupsOfFour_five]
    simp only [List.length_cons] at ih ⊢
    omega

theorem intercalate_cons_cons (sep x y : JsString) (ys : List JsString) :
    sep.intercalate (x :: y :: ys) = x ++ sep ++ sep.intercalate (y :: ys) := by
  simp [List.intercalate, List.intersperse]

theorem insertGroupSpaces_eq_intercalate (v : JsString) (hv : ∀ c ∈ v, isDigitChar c = true) :
    insertGroupSpaces v = [' '].intercalate (groupsOfFour v) := by
  refine digits_group_induction
    (motive := fun v => insertGroupSpaces v = [' '].intercalate (groupsOfFour v)) ?_ ?_ ?_ v hv
  · simp [insertGroupSpaces, groupsOfFour, List.intercalate]
  · intro a l h _
    rw [insertGroupSpaces_short _ h, groupsOfFour_short a l h]
    simp [List.intercalate]
  · intro a b c d e rest h ih
    obtain ⟨g, gs, hg⟩ := List.exists_cons_of_ne_nil (groupsOfFour_ne_nil e rest)
    rw [insertGroupSpaces_five h, groupsOfFour_five, ih, hg, intercalate_cons_cons]
    simp

theorem insertGroupSpaces_chain (v : JsString) (hv : ∀ c ∈ v, isDigitChar c = true) :
    (insertGroupSpaces v).Chain' (fun x y => ¬ (x = ' ' ∧ y = ' ')) := by
  refine digits_group_induction
    (motive := fun v => (insertGroupSpaces v).Chain' (fun x y => ¬ (x = ' ' ∧ y = ' ')))
    ?_ ?_ ?_ v hv
  · simp [insertGroupSpaces]
  · intro a l h hd
    rw [insertGroupSpaces_short _ h]
    apply List.Pairwise.chain'
    refine List.Pairwise.imp_of_mem (R := fun _ _ => True) ?_ (List.pairwise_of_forall (fun _ _ => trivial))
    intro x y hx _ _ hxy
    exact ne_space_of_digit (hd x hx) hxy.1
  · intro a b c d e rest h ih
    rw [insertGroupSpaces_five h]
    have ha := ne_space_of_digit (h a (by simp))
    have hb := ne_space_of_digit (h b (by simp))
    have hc := ne_space_of_digit (h c (by simp))
    have hd := ne_space_of_digit (h d (by simp))
    have he := ne_space_of_digit (h e (by simp))
    have hhead := insertGroupSpaces_head e rest
    obtain ⟨x, xs, hx⟩ := List.exists_cons_of_ne_nil
      (mt (insertGroupSpaces_eq_nil (e :: rest)).mp (List.cons_ne_nil e rest))
    rw [hx] at hhead ih ⊢
    simp only [List.head?_cons, Option.some.injEq] at hhead
    subst hhead
    simp only [List.chain'_cons]
    refine ⟨fun h => ha h.1, fun h => hb h.1, fun h => hc h.1, fun h => hd h.1,
      fun h => he h.2, ih⟩
/-! ## The payment maskers -/

/-- The maskers on sample inputs: sixteen digits with separators and a surplus digit, five
digits, four digits, no digit; an expiry with its slash; a CVV with stray characters. -/
theorem maskers_samples :
    cardNumberInput_onInput "4111-1111 1111x11119".toList = "4111 1111 1111 1111".toList ∧
    cardNumberInput_onInput "41111".toList = "4111 1".toList ∧
    cardNumberInput_onInput "4111".toList = "4111".toList ∧
    cardNumberInput_onInput " a ".toList = [] ∧
    cardExpiryInput_onInput "12/345".toList = "12/34".toList ∧
    cardExpiryInput_onInput "1a2".toList = "12".toList ∧
    cardCvvInput_onInput "1a2 34".toList = "123".toList := by
  decide

/-- C1. Card-number formatter, digit content: with the spaces removed, the output is the
first 16 ASCII digits of the input in order (all of them when there are fewer), and every
character of the output is one of `0`..`9` or the space. -/
theorem cardNumber_digit_content (s : JsString) :
    (cardNumberInput_onInput s).filter (fun c => c != ' ') = (s.filter Char.isDigit).take 16 ∧
    ∀ c ∈ cardNumberInput_onInput s, c ∈ "0123456789 ".toList := by
  rw [cardNumberInput_onInput_eq]
  have hd : ∀ c ∈ (stripNonDigits s).take 16, isDigitChar c = true := fun c hc =>
    (List.mem_filter.mp (List.mem_of_mem_take hc)).2
  constructor
  · rw [insertGroupSpaces_filter _ (by decide) _ hd]
    exact List.filter_eq_self.mpr (fun c hc => by simpa using ne_space_of_digit (hd c hc))
  · intro c hc
    rcases insertGroupSpaces_mem _ hd c hc with h | rfl
    · have := digit_mem_chars h
      simp only [String.toList, List.mem_cons] at this ⊢
      tauto
    · decide

/-- C2. Card-number formatter, grouping shape: the output is the kept digits cut from the
left into groups joined by one space each; every group has 1 to 4 digits, every group but
the last exactly 4, and there are at most 4 groups; the output neither starts nor ends with
a space, has no two adjacent spaces, and is empty when the input has no digit. -/
theorem cardNumber_grouping (s : JsString) :
    ∃ groups : List JsString,
      cardNumberInput_onInput s = [' '].intercalate groups ∧
      groups.flatten = (s.filter Char.isDigit).take 16 ∧
      (∀ g ∈ groups, 1 ≤ g.length ∧ g.length ≤ 4) ∧
      (∀ g ∈ groups.dropLast, g.length = 4) ∧
      groups.length ≤ 4 ∧
      (cardNumberInput_onInput s).head? ≠ some ' ' ∧
      (cardNumberInput_onInput s).getLast? ≠ some ' ' ∧
      (cardNumberInput_onInput s).Chain' (fun x y => ¬ (x = ' ' ∧ y = ' ')) ∧
      (s.filter Char.isDigit = [] → cardNumberInput_onInput s = []) := by
  have hd : ∀ c ∈ (stripNonDigits s).take 16, isDigitChar c = true := fun c hc =>
    (List.mem_filter.mp (List.mem_of_mem_take hc)).2
  have hlen : ((stripNonDigits s).take 16).length ≤ 16 := List.length_take_le _ _
  refine ⟨groupsOfFour ((stripNonDigits s).take 16), ?_, groupsOfFour_flatten _,
    groupsOfFour_group_length _, groupsOfFour_dropLast _, ?_, ?_, ?_, ?_, ?_⟩
  · rw [cardNumberInput_onInput_eq, insertGroupSpaces_eq_intercalate _ hd]
  · have := groupsOfFour_length ((stripNonDigits s).take 16)
    omega
  · rw [cardNumberInput_onInput_eq]
    cases hv : (stripNonDigits s).take 16 with
    | nil => simp [insertGroupSpaces]
    | cons a l =>
      rw [insertGroupSpaces_head]
      intro h
      exact ne_space_of_digit (hd a (by rw [hv]; simp)) (Option.some.inj h)
  · rw [cardNumberInput_onInput_eq, insertGroupSpaces_getLast _ hd]
    intro h
    exact ne_space_of_digit (hd _ (List.mem_of_getLast?_eq_some h)) rfl
  · rw [cardNumberInput_onInput_eq]
    exact insertGroupSpaces_chain _ hd
  · intro h
    rw [cardNumberInput_onInput_eq]
    have : stripNonDigits s = [] := h
    simp [this, insertGroupSpaces]

theorem cardExpiryInput_onInput_eq (s : JsString) :
    cardExpiryInput_onInput s =
      if 2 < ((stripNonDigits s).take 4).length then
        ((stripNonDigits s).take 4).take 2 ++ '/' :: ((stripNonDigits s).take 4).drop 2
      else (stripNonDigits s).take 4 := by
  simp only [cardExpiryInput_onInput, limitLength_eq_take, gt_iff_lt]

/-- C3. Expiry formatter: with `d` the first 4 ASCII digits of the input, the output is `d`
itself when `d` has at most 2 digits and otherwise the first two digits of `d`, a `/`, and
the rest of `d`; so a digit string of length at most 2 is returned unchanged and one of
length 3 or 4 becomes `first2/rest`. -/
theorem cardExpiry_format (s : JsString) :
    (cardExpiryInput_onInput s =
      if ((s.filter Char.isDigit).take 4).length ≤ 2 then (s.filter Char.isDigit).take 4
      else ((s.filter Char.isDigit).take 4).take 2 ++ ['/'] ++
        ((s.filter Char.isDigit).take 4).drop 2) ∧
    ((∀ c ∈ s, c.isDigit = true) → s.length ≤ 2 → cardExpiryInput_onInput s = s) ∧
    ((∀ c ∈ s, c.isDigit = true) → (s.length = 3 ∨ s.length = 4) →
      cardExpiryInput_onInput s = s.take 2 ++ ['/'] ++ s.drop 2) := by
  refine ⟨?_, ?_, ?_⟩
  · rw [cardExpiryInput_onInput_eq]
    show _ = if ((stripNonDigits s).take 4).length ≤ 2 then _ else _
    by_cases h : ((stripNonDigits s).take 4).length ≤ 2
    · rw [if_neg (by omega), if_pos h]; rfl
    · rw [if_pos (by omega), if_neg h]; simp; rfl
  · intro hs hl
    rw [cardExpiryInput_onInput_eq, stripNonDigits_of_digits hs,
      List.take_of_length_le (by omega), if_neg (by omega)]
  · intro hs hl
    rw [cardExpiryInput_onInput_eq, stripNonDigits_of_digits hs,
      List.take_of_length_le (by omega), if_pos (by omega)]
    simp

theorem cardExpiry_format_witness :
    cardExpiryInput_onInput "12".toList = "12".toList ∧
    cardExpiryInput_onInput "1234".toList = "12/34".toList :=
  ⟨(cardExpiry_format "12".toList).2.1 (by decide) (by decide),
   (cardExpiry_format "1234".toList).2.2 (by decide) (by decide)⟩

/-- C4. CVV formatter: the output is the first 3 ASCII digits of the input in order (all of
them when there are fewer) and holds nothing but digits; for a digit string it is its
first 3 characters. -/
theorem cardCvv_format (s : JsString) :
    cardCvvInput_onInput s = (s.filter Char.isDigit).take 3 ∧
    (∀ c ∈ cardCvvInput_onInput s, c ∈ "0123456789".toList) ∧
    ((∀ c ∈ s, c.isDigit = true) → cardCvvInput_onInput s = s.take 3) := by
  have h : cardCvvInput_onInput s = (stripNonDigits s).take 3 := by
    simp only [cardCvvInput_onInput, limitLength_eq_take]
  refine ⟨h, ?_, ?_⟩
  · intro c hc
    rw [h] at hc
    exact digit_mem_chars (List.mem_filter.mp (List.mem_of_mem_take hc)).2
  · intro hs
    rw [h, stripNonDigits_of_digits hs]

theorem cardCvv_format_witness : cardCvvInput_onInput "12345".toList = "123".toList :=
  (cardCvv_format "12345".toList).2.2 (by decide)

/-- C5. Idempotence of the three payment formatters: applying the card-number, the expiry
or the CVV handler to its own output returns that output. -/
theorem formatters_idempotent (s : JsString) :
    cardNumberInput_onInput (cardNumberInput_onInput s) = cardNumberInput_onInput s ∧
    cardExpiryInput_onInput (cardExpiryInput_onInput s) = cardExpiryInput_onInput s ∧
    cardCvvInput_onInput (cardCvvInput_onInput s) = cardCvvInput_onInput s := by
  refine ⟨?_, ?_, ?_⟩
  · have hd : ∀ c ∈ (stripNonDigits s).take 16, isDigitChar c = true := fun c hc =>
      (List.mem_filter.mp (List.mem_of_mem_take hc)).2
    have hlen : ((stripNonDigits s).take 16).length ≤ 16 := List.length_take_le _ _
    have hstrip : stripNonDigits (insertGroupSpaces ((stripNonDigits s).take 16)) =
        (stripNonDigits s).take 16 := by
      unfold stripNonDigits at hd ⊢
      rw [insertGroupSpaces_filter _ (by decide) _ hd]
      exact List.filter_eq_self.mpr hd
    rw [cardNumberInput_onInput_eq s, cardNumberInput_onInput_eq, hstrip,
      List.take_of_length_le hlen]
  · have hd : ∀ c ∈ (stripNonDigits s).take 4, isDigitChar c = true := fun c hc =>
      (List.mem_filter.mp (List.mem_of_mem_take hc)).2
    have hlen : ((stripNonDigits s).take 4).length ≤ 4 := List.length_take_le _ _
    have hstrip : stripNonDigits (cardExpiryInput_onInput s) = (stripNonDigits s).take 4 := by
      rw [cardExpiryInput_onInput_eq]
      generalize (stripNonDigits s).take 4 = d at hd hlen
      split
      · have h1 : stripNonDigits (d.take 2) = d.take 2 :=
          stripNonDigits_of_digits (fun c hc => hd c (List.mem_of_mem_take hc))
        have h2 : stripNonDigits (d.drop 2) = d.drop 2 :=
          stripNonDigits_of_digits (fun c hc => hd c (List.mem_of_mem_drop hc))
        unfold stripNonDigits at h1 h2 ⊢
        rw [List.filter_append, List.filter_cons_of_neg (by decide), h1, h2,
          List.take_append_drop]
      · exact stripNonDigits_of_digits hd
    rw [cardExpiryInput_onInput_eq (cardExpiryInput_onInput s), hstrip,
      List.take_of_length_le hlen, ← cardExpiryInput_onInput_eq]
  · have h : ∀ t, cardCvvInput_onInput t = (stripNonDigits t).take 3 := fun t => by
      simp only [cardCvvInput_onInput, limitLength_eq_take]
    have hd : ∀ c ∈ (stripNonDigits s).take 3, isDigitChar c = true := fun c hc =>
      (List.mem_filter.mp (List.mem_of_mem_take hc)).2
    rw [h s, h, stripNonDigits_of_digits hd, List.take_take]
    simp

/-! ## File label and validation -/

/-- C8 as stated fails for a selected file whose name is the empty string: the label becomes
`Choose file`, not that name. -/
theorem fileLabel_empty_name_counterexample :
    (fileInput_onChange { files := [{ name := [] }], labelText := [] }).labelText
      = "Choose file".toList ∧
    (fileInput_onChange { files := [{ name := [] }], labelText := [] }).labelText
      ≠ (File.mk []).name := by
  decide

/-- C8 (amended). File label: on a change event, when the first selected file has a non-empty
name the label text becomes that name, and when no file is selected it becomes
`Choose file`; the selection itself is untouched, the new label depends on the selection
alone, and a second change event on the same selection changes nothing further. -/
theorem fileLabel_update (picker : FilePicker) :
    (∀ file rest, picker.files = file :: rest → file.name ≠ [] →
      (fileInput_onChange picker).labelText = file.name) ∧
    (picker.files = [] → (fileInput_onChange picker).labelText = "Choose file".toList) ∧
    (fileInput_onChange picker).files = picker.files ∧
    (∀ other : FilePicker, other.files = picker.files →
      (fileInput_onChange other).labelText = (fileInput_onChange picker).labelText) ∧
    fileInput_onChange (fileInput_onChange picker) = fileInput_onChange picker := by
  obtain ⟨files, label⟩ := picker
  have hfiles : ∀ p : FilePicker, (fileInput_onChange p).files = p.files := by
    intro p
    unfold fileInput_onChange
    split
    · split <;> rfl
    · rfl
  have hdep : ∀ p q : FilePicker, p.files = q.files →
      (fileInput_onChange p).labelText = (fileInput_onChange q).labelText := by
    intro p q hpq
    unfold fileInput_onChange
    rw [hpq]
  refine ⟨?_, ?_, hfiles _, fun other h => hdep _ _ h, ?_⟩
  · rintro file rest h hne
    simp only at h
    subst h
    simp [fileInput_onChange, firstFileName, hne]
  · intro h
    simp only at h
    subst h
    simp [fileInput_onChange, firstFileName]
  · have h1 := hfiles (fileInput_onChange ⟨files, label⟩)
    have h2 := hdep (fileInput_onChange ⟨files, label⟩) ⟨files, label⟩ (hfiles _)
    cases hx : fileInput_onChange (fileInput_onChange ⟨files, label⟩)
    cases hy : fileInput_onChange ⟨files, label⟩
    rw [hx, hy] at h1 h2
    simp only at h1 h2
    rw [h1, h2]

theorem fileLabel_update_witness :
    (fileInput_onChange { files := [{ name := "report.pdf".toList }], labelText := [] }).labelText
      = "report.pdf".toList ∧
    (fileInput_onChange { files := [], labelText := "report.pdf".toList }).labelText
      = "Choose file".toList :=
  ⟨(fileLabel_update { files := [{ name := "report.pdf".toList }], labelText := [] }).1
      _ _ rfl (by decide),
   (fileLabel_update { files := [], labelText := "report.pdf".toList }).2.1 rfl⟩

/-- C9. Validation cancels exactly on invalid forms: the submit listener calls
`preventDefault` and `stopPropagation` on the event (both, in that order, and nothing else)
when `checkValidity()` is false, and makes no call on the event when it is true; so both
calls are made if and only if the form is invalid. -/
theorem submit_cancels_iff_invalid (form : Form) (event : SubmitEvent) :
    (form_onSubmit form event).2.calls =
      event.calls ++ (if form.checkValidity = false
        then [EventCall.preventDefault, EventCall.stopPropagation] else []) ∧
    ((EventCall.preventDefault ∈ (form_onSubmit form event).2.calls.drop event.calls.length ∧
      EventCall.stopPropagation ∈ (form_onSubmit form event).2.calls.drop event.calls.length)
      ↔ form.checkValidity = false) ∧
    (form.checkValidity = true → (form_onSubmit form event).2 = event) := by
  obtain ⟨valid, classes⟩ := form
  obtain ⟨calls⟩ := event
  cases valid <;> simp [form_onSubmit]

theorem submit_cancels_iff_invalid_witness :
    (form_onSubmit { checkValidity := true, classList := ["needs-validation".toList] }
      { calls := [] }).2 = { calls := [] } :=
  (submit_cancels_iff_invalid { checkValidity := true, classList := ["needs-validation".toList] }
    { calls := [] }).2.2 rfl

/-- C10. Validation marking is unconditional: after the submit listener has run, the
form's class list contains `was-validated` whatever `checkValidity()` returned, every class
present before is still present, and a further submit (valid or not) leaves the class list
as it is. -/
theorem submit_marks_validated (form : Form) (event : SubmitEvent) :
    "was-validated".toList ∈ (form_onSubmit form event).1.classList ∧
    (∀ c ∈ form.classList, c ∈ (form_onSubmit form event).1.classList) ∧
    (∀ (valid : Bool) (event2 : SubmitEvent),
      (form_onSubmit { (form_onSubmit form event).1 with checkValidity := valid } event2).1.classList
        = (form_onSubmit form event).1.classList) := by
  have hmem : ∀ cl : List JsString, "was-validated".toList ∈ classList_add cl "was-validated".toList := by
    intro cl
    unfold classList_add
    split
    · assumption
    · simp
  refine ⟨hmem _, ?_, ?_⟩
  · intro c hc
    simp only [form_onSubmit, classList_add]
    split
    · exact hc
    · exact List.mem_append_left _ hc
  · intro valid event2
    simp only [form_onSubmit]
    generalize hcl : classList_add form.classList "was-validated".toList = cl
    have hin : "was-validated".toList ∈ cl := hcl ▸ hmem form.classList
    unfold classList_add
    rw [if_pos hin]

/-! # Dates -/

/-! ## Day numbers and years -/

theorem DayFromYear_succ (y : Int) : DayFromYear (y + 1) = DayFromYear y + DaysInYear y := by
  unfold DayFromYear DaysInYear
  omega

theorem DaysInYear_eq (y : Int) : DaysInYear y = if isLeapYear y then 366 else 365 := by
  unfold DaysInYear isLeapYear
  by_cases h4 : y % 4 = 0 <;> by_cases h100 : y % 100 = 0 <;> by_cases h400 : y % 400 = 0 <;>
    simp [h4, h100, h400] <;> omega

theorem DayFromYear_strictMono {y z : Int} (h : y < z) : DayFromYear y < DayFromYear z := by
  unfold DayFromYear
  omega

theorem yearFromDay_decompose (day : Int) :
    ∃ a i b g p : Int,
      yearFromDay day = 1601 + 400 * a + 100 * i + 4 * b + g ∧
      day + 134774 = 146097 * a + 36524 * i + 1461 * b + p ∧
      0 ≤ i ∧ i ≤ 3 ∧ 0 ≤ b ∧ b ≤ 24 ∧ 0 ≤ g ∧ g ≤ 3 ∧
      365 * g ≤ p ∧ p < 1461 ∧ (g < 3 → p < 365 * g + 365) ∧
      (i < 3 → 1461 * b + p < 36524) ∧ 1461 * b + p ≤ 36524 := by
  have hr0 : 0 ≤ (day + 134774) % 146097 := Int.emod_nonneg _ (by norm_num)
  have hr1 : (day + 134774) % 146097 < 146097 := Int.emod_lt_of_pos _ (by norm_num)
  have hnar := Int.ediv_add_emod (day + 134774) 146097
  unfold yearFromDay
  simp only
  generalize (day + 134774) / 146097 = a at *
  generalize (day + 134774) % 146097 = r at *
  have hi0 : 0 ≤ min (r / 36524) 3 := by omega
  have hi3 : min (r / 36524) 3 ≤ 3 := by omega
  have hq0 : 0 ≤ r - min (r / 36524) 3 * 36524 := by omega
  have hq1 : r - min (r / 36524) 3 * 36524 ≤ 36524 := by omega
  have hq2 : min (r / 36524) 3 < 3 → r - min (r / 36524) 3 * 36524 < 36524 := by omega
  generalize min (r / 36524) 3 = i at *
  have hrq : r = (r - i * 36524) + 36524 * i := by ring
  generalize r - i * 36524 = q at *
  have hp0 : 0 ≤ q % 1461 := Int.emod_nonneg _ (by norm_num)
  have hp1 : q % 1461 < 1461 := Int.emod_lt_of_pos _ (by norm_num)
  have hqbp := Int.ediv_add_emod q 1461
  have hb0 : 0 ≤ q / 1461 := by omega
  have hb1 : q / 1461 ≤ 24 := by omega
  generalize q / 1461 = b at *
  generalize q % 1461 = p at *
  have hg0 : 0 ≤ min (p / 365) 3 := by omega
  have hg3 : min (p / 365) 3 ≤ 3 := by omega
  have hpg : 365 * min (p / 365) 3 ≤ p := by omega
  have hpg2 : min (p / 365) 3 < 3 → p < 365 * min (p / 365) 3 + 365 := by omega
  generalize min (p / 365) 3 = g at *
  refine ⟨a, i, b, g, p, rfl, by omega, hi0, hi3, hb0, hb1, hg0, hg3, hpg, hp1, hpg2, ?_, ?_⟩
  · intro h; have := hq2 h; omega
  · omega

theorem DayFromYear_cycles (a i b g : Int) (hi0 : 0 ≤ i) (hi3 : i ≤ 3) (hb0 : 0 ≤ b)
    (hb1 : b ≤ 24) (hg0 : 0 ≤ g) (hg3 : g ≤ 3) :
    DayFromYear (1601 + 400 * a + 100 * i + 4 * b + g) =
      146097 * a + 36524 * i + 1461 * b + 365 * g - 134774 := by
  unfold DayFromYear
  omega

theorem DayFromYear_cycles_succ (a i b g : Int) (hi0 : 0 ≤ i) (hi3 : i ≤ 3) (hb0 : 0 ≤ b)
    (hb1 : b ≤ 24) (hg0 : 0 ≤ g) (hg3 : g ≤ 3) :
    DayFromYear (1601 + 400 * a + 100 * i + 4 * b + g + 1) =
      146097 * a + 36524 * i + 1461 * b + 365 * g - 134774 + 365 +
        (if g = 3 ∧ (b = 24 → i = 3) then 1 else 0) := by
  unfold DayFromYear
  split <;> omega

/-- The year computed for a day number starts on or before that day, and the next year
starts after it. -/
theorem yearFromDay_spec (day : Int) :
    DayFromYear (yearFromDay day) ≤ day ∧ day < DayFromYear (yearFromDay day + 1) := by
  obtain ⟨a, i, b, g, p, hy, hd, hi0, hi3, hb0, hb1, hg0, hg3, hpg, hp1, hpg2, hq2, hq1⟩ :=
    yearFromDay_decompose day
  rw [hy, DayFromYear_cycles a i b g hi0 hi3 hb0 hb1 hg0 hg3,
    DayFromYear_cycles_succ a i b g hi0 hi3 hb0 hb1 hg0 hg3]
  constructor
  · omega
  · split <;> omega

/-- `yearFromDay day` is the largest `y` with `DayFromYear y ≤ day`. -/
theorem yearFromDay_largest (day y : Int) : DayFromYear y ≤ day ↔ y ≤ yearFromDay day := by
  have hs := yearFromDay_spec day
  constructor
  · intro h
    by_contra hlt
    have h1 : yearFromDay day + 1 ≤ y := by omega
    have h2 : DayFromYear (yearFromDay day + 1) ≤ DayFromYear y := by
      rcases eq_or_lt_of_le h1 with h3 | h3
      · rw [h3]
      · exact le_of_lt (DayFromYear_strictMono h3)
    omega
  · intro h
    rcases eq_or_lt_of_le h with h3 | h3
    · rw [h3]; exact hs.1
    · exact le_trans (le_of_lt (DayFromYear_strictMono h3)) hs.1

theorem yearFromDay_unique {day y : Int} (h1 : DayFromYear y ≤ day)
    (h2 : day < DayFromYear (y + 1)) : yearFromDay day = y := by
  have ha := (yearFromDay_largest day y).mp h1
  have hb : ¬ (y + 1 ≤ yearFromDay day) := fun h =>
    absurd ((yearFromDay_largest day (y + 1)).mpr h) (by omega)
  omega

/-! ## Months and days of the month -/

theorem monthOfYearDay_range (w leap : Int) :
    0 ≤ monthOfYearDay w leap ∧ monthOfYearDay w leap ≤ 11 := by
  unfold monthOfYearDay
  omega

theorem dateOfYearDay_eq (w leap : Int) :
    dateOfYearDay w leap = w - daysBeforeMonth (monthOfYearDay w leap) leap + 1 := by
  have := monthOfYearDay_range w leap
  unfold dateOfYearDay daysBeforeMonth
  simp only
  generalize monthOfYearDay w leap = m at *
  omega

theorem daysBeforeMonth_le (w leap : Int) (hw : 0 ≤ w) :
    daysBeforeMonth (monthOfYearDay w leap) leap ≤ w := by
  unfold monthOfYearDay daysBeforeMonth
  omega

theorem lt_daysBeforeMonth_succ (w leap : Int) (h : monthOfYearDay w leap < 11) :
    w < daysBeforeMonth (monthOfYearDay w leap + 1) leap := by
  unfold monthOfYearDay daysBeforeMonth at *
  omega

theorem monthOfYearDay_eq (w leap m : Int) (hm : 0 ≤ m) (hm2 : m ≤ 11)
    (hl0 : 0 ≤ leap) (hl1 : leap ≤ 1)
    (hlo : daysBeforeMonth m leap ≤ w)
    (hhi : m < 11 → w < daysBeforeMonth (m + 1) leap) :
    monthOfYearDay w leap = m := by
  unfold daysBeforeMonth at hlo hhi
  unfold monthOfYearDay
  omega

theorem daysBeforeMonth_lt_succ (m leap : Int) (hm : 0 ≤ m) (hm2 : m < 11) (hl0 : 0 ≤ leap)
    (hl1 : leap ≤ 1) : daysBeforeMonth m leap < daysBeforeMonth (m + 1) leap := by
  unfold daysBeforeMonth
  omega

theorem daysBeforeMonth_le_last (m leap : Int) (hl0 : 0 ≤ leap) :
    daysBeforeMonth m leap ≤ 334 + leap := by
  unfold daysBeforeMonth
  omega

theorem daysInMonth_eq_diff (y m leap : Int) (hleap : leap = if isLeapYear y then 1 else 0)
    (hm : 0 ≤ m) (hm2 : m ≤ 11) :
    daysInMonth y (m + 1) =
      (if m = 11 then 365 + leap else daysBeforeMonth (m + 1) leap) - daysBeforeMonth m leap := by
  have hl : leap = 0 ∨ leap = 1 := by
    cases h : isLeapYear y <;> simp [h] at hleap <;> omega
  have hd : daysInMonth y (m + 1) =
      if m + 1 = 2 then 28 + leap
      else if m + 1 = 4 ∨ m + 1 = 6 ∨ m + 1 = 9 ∨ m + 1 = 11 then 30 else 31 := by
    unfold daysInMonth
    cases h : isLeapYear y <;> simp [h] at hleap <;> subst hleap <;> simp
  rw [hd]
  unfold daysBeforeMonth
  omega

/-- One calendar day forward, in terms of the year and the day within the year. -/
theorem nextDay_yearDay (y w leap : Int) (hleap : leap = if isLeapYear y then 1 else 0)
    (hw : 0 ≤ w) (hw2 : w < 365 + leap) :
    nextDay ⟨y, monthOfYearDay w leap + 1, dateOfYearDay w leap⟩ =
      if w + 1 < 365 + leap then
        ⟨y, monthOfYearDay (w + 1) leap + 1, dateOfYearDay (w + 1) leap⟩
      else ⟨y + 1, 1, 1⟩ := by
  have hl : 0 ≤ leap ∧ leap ≤ 1 := by
    cases h : isLeapYear y <;> simp [h] at hleap <;> omega
  obtain ⟨hm0, hm11⟩ := monthOfYearDay_range w leap
  have hlo := daysBeforeMonth_le w leap hw
  have hhi := lt_daysBeforeMonth_succ w leap
  have hdate := dateOfYearDay_eq w leap
  have hdate1 := dateOfYearDay_eq (w + 1) leap
  have hdim := daysInMonth_eq_diff y (monthOfYearDay w leap) leap hleap hm0 hm11
  have hlast := daysBeforeMonth_le_last (monthOfYearDay w leap + 1) leap hl.1
  have hmono : monthOfYearDay w leap + 1 < 11 →
      daysBeforeMonth (monthOfYearDay w leap + 1) leap <
        daysBeforeMonth (monthOfYearDay w leap + 1 + 1) leap := fun h =>
    daysBeforeMonth_lt_succ _ leap (by omega) h hl.1 hl.2
  have hsame := monthOfYearDay_eq (w + 1) leap (monthOfYearDay w leap) hm0 hm11 hl.1 hl.2
  have hnext := monthOfYearDay_eq (w + 1) leap (monthOfYearDay w leap + 1) (by omega)
  generalize monthOfYearDay w leap = m at *
  generalize dateOfYearDay w leap = d at *
  unfold nextDay
  simp only
  by_cases hlt : d < daysInMonth y (m + 1)
  · rw [if_pos hlt]
    rw [hdim] at hlt
    have hm1 : monthOfYearDay (w + 1) leap = m := by
      apply hsame
      · omega
      · intro h; rw [if_neg (by omega)] at hlt; omega
    have hin : w + 1 < 365 + leap := by
      by_cases h11 : m = 11
      · rw [if_pos h11] at hlt; omega
      · rw [if_neg h11] at hlt; omega
    rw [if_pos hin, hdate1, hm1]
    congr 1
    omega
  · rw [if_neg hlt]
    rw [hdim] at hlt
    by_cases h11 : m = 11
    · rw [if_pos h11] at hlt
      rw [if_neg (by omega), if_neg (by omega)]
    · rw [if_neg h11] at hlt
      have hm10 : m < 11 := by omega
      have hw1 : w + 1 = daysBeforeMonth (m + 1) leap := by
        have := hhi hm10
        omega
      have hm1 : monthOfYearDay (w + 1) leap = m + 1 := by
        apply hnext
        · omega
        · exact hl.1
        · exact hl.2
        · omega
        · intro h; have := hmono h; omega
      rw [if_pos (by omega), if_pos (by omega), hdate1, hm1]
      congr 1
      omega

/-! ## Time values one day apart -/

theorem Day_add_msPerDay (t : Int) : Day (t + msPerDay) = Day t + 1 := by
  unfold Day msPerDay
  omega

theorem InLeapYear_eq (t : Int) :
    InLeapYear t = if isLeapYear (YearFromTime t) then 1 else 0 := by
  unfold InLeapYear
  rw [DaysInYear_eq]
  cases isLeapYear (YearFromTime t) <;> simp

theorem DayWithinYear_range (t : Int) :
    0 ≤ DayWithinYear t ∧ DayWithinYear t < 365 + InLeapYear t := by
  have hs := yearFromDay_spec (Day t)
  rw [DayFromYear_succ] at hs
  unfold DayWithinYear InLeapYear YearFromTime
  have hd : DaysInYear (yearFromDay (Day t)) = 365 ∨ DaysInYear (yearFromDay (Day t)) = 366 := by
    unfold DaysInYear
    omega
  constructor
  · omega
  · split <;> omega

/-- The calendar day shown by a time value one day later is the next calendar day. -/
theorem calendarOf_add_msPerDay (t : Int) :
    calendarOf (t + msPerDay) = nextDay (calendarOf t) := by
  have hs := yearFromDay_spec (Day t)
  have hrange := DayWithinYear_range t
  have hleap := InLeapYear_eq t
  have hnext := nextDay_yearDay (YearFromTime t) (DayWithinYear t) (InLeapYear t) hleap
    hrange.1 hrange.2
  show (⟨YearFromTime (t + msPerDay), MonthFromTime (t + msPerDay) + 1,
      DateFromTime (t + msPerDay)⟩ : CalendarDate) =
    nextDay ⟨YearFromTime t, MonthFromTime t + 1, DateFromTime t⟩
  unfold MonthFromTime DateFromTime
  rw [hnext]
  have hdiy : DaysInYear (YearFromTime t) = 365 + InLeapYear t := by
    unfold InLeapYear
    have : DaysInYear (YearFromTime t) = 365 ∨ DaysInYear (YearFromTime t) = 366 := by
      unfold DaysInYear
      omega
    split <;> omega
  by_cases hin : DayWithinYear t + 1 < 365 + InLeapYear t
  · have hy : YearFromTime (t + msPerDay) = YearFromTime t := by
      unfold YearFromTime
      rw [Day_add_msPerDay]
      apply yearFromDay_unique
      · omega
      · rw [DayFromYear_succ]
        unfold DayWithinYear YearFromTime at hin hdiy
        omega
    have hw : DayWithinYear (t + msPerDay) = DayWithinYear t + 1 := by
      unfold DayWithinYear
      rw [hy, Day_add_msPerDay]
      omega
    have hl : InLeapYear (t + msPerDay) = InLeapYear t := by
      unfold InLeapYear
      rw [hy]
    rw [if_pos hin, hy, hw, hl]
  · have hlast : Day t + 1 = DayFromYear (YearFromTime t + 1) := by
      rw [DayFromYear_succ]
      unfold DayWithinYear at hin hrange
      omega
    have hy : YearFromTime (t + msPerDay) = YearFromTime t + 1 := by
      unfold YearFromTime at hlast ⊢
      rw [Day_add_msPerDay]
      apply yearFromDay_unique
      · omega
      · rw [hlast]
        exact DayFromYear_strictMono (by omega)
    have hw : DayWithinYear (t + msPerDay) = 0 := by
      unfold DayWithinYear
      rw [hy, Day_add_msPerDay]
      omega
    rw [if_neg hin, hy, hw]
    have h0 : ∀ leap : Int, monthOfYearDay 0 leap = 0 := fun leap => by
      unfold monthOfYearDay
      simp
    have h1 : ∀ leap : Int, dateOfYearDay 0 leap = 1 := fun leap => by
      unfold dateOfYearDay
      simp [h0]
    rw [h0, h1]
    rfl

theorem calendarOf_add_days (n : Nat) (t : Int) :
    calendarOf (t + n * msPerDay) = addDays n (calendarOf t) := by
  induction n with
  | zero => simp [addDays]
  | succ k ih =>
    have : t + ((k + 1 : Nat) : Int) * msPerDay = (t + k * msPerDay) + msPerDay := by
      push_cast
      ring
    rw [this, calendarOf_add_msPerDay, ih]
    unfold addDays
    rw [Function.iterate_succ_apply']

/-! ## `MakeDay` and `setDate` -/

theorem MakeDay_own_month (t dt : Int) :
    MakeDay (YearFromTime t) (MonthFromTime t) dt = Day t + (dt - DateFromTime t) := by
  obtain ⟨hm0, hm11⟩ := monthOfYearDay_range (DayWithinYear t) (InLeapYear t)
  have hdate := dateOfYearDay_eq (DayWithinYear t) (InLeapYear t)
  unfold MakeDay
  simp only
  unfold DateFromTime MonthFromTime
  rw [hdate]
  have h1 : monthOfYearDay (DayWithinYear t) (InLeapYear t) / 12 = 0 := by omega
  have h2 : monthOfYearDay (DayWithinYear t) (InLeapYear t) % 12 =
      monthOfYearDay (DayWithinYear t) (InLeapYear t) := by omega
  rw [h1, h2, add_zero]
  have h3 : (if DaysInYear (YearFromTime t) = 366 then (1 : Int) else 0) = InLeapYear t := rfl
  rw [h3]
  unfold DayWithinYear
  omega

/-- Rebuilding the day from a local time value's own year and month, with its day of the
month plus `n`, gives the local time value `n` days later. -/
theorem MakeDate_own_day_add (t n : Int) :
    MakeDate (MakeDay (YearFromTime t) (MonthFromTime t) (DateFromTime t + n))
      (TimeWithinDay t) = t + n * msPerDay := by
  rw [MakeDay_own_month]
  unfold MakeDate TimeWithinDay Day msPerDay
  omega

/-- On a valid date, setting the day of the month to `getDate() + n` stores the instant of
the local time `n` days later, clipped. -/
theorem setDate_getDate_add (tz : TimeZone) (tv : Int) (n : Int) :
    Date.setDate tz ⟨some tv⟩ ((Date.getDate tz ⟨some tv⟩).map (fun d => d + n)) =
      ⟨TimeClip (UTC tz (LocalTime tz tv + n * msPerDay))⟩ := by
  show (⟨TimeClip (UTC tz (MakeDate (MakeDay (YearFromTime (LocalTime tz tv))
    (MonthFromTime (LocalTime tz tv)) (DateFromTime (LocalTime tz tv) + n))
    (TimeWithinDay (LocalTime tz tv))))⟩ : Date) = _
  rw [MakeDate_own_day_add]

/-- `MakeDay` starts from the first day of the month it is asked for: the time value of
`MakeDay year month 1` lies in year `year + floor(month / 12)`, month `month modulo 12`, and
is day 1 of that month. -/
theorem MakeDay_first_of_month (year month : Int) :
    YearFromTime (MakeDate (MakeDay year month 1) 0) = year + month / 12 ∧
    MonthFromTime (MakeDate (MakeDay year month 1) 0) = month % 12 ∧
    DateFromTime (MakeDate (MakeDay year month 1) 0) = 1 := by
  have hmn0 : 0 ≤ month % 12 := Int.emod_nonneg _ (by norm_num)
  have hmn1 : month % 12 < 12 := Int.emod_lt_of_pos _ (by norm_num)
  have hday : Day (MakeDate (MakeDay year month 1) 0) =
      DayFromYear (year + month / 12) +
        daysBeforeMonth (month % 12) (if DaysInYear (year + month / 12) = 366 then 1 else 0) := by
    unfold MakeDate MakeDay Day msPerDay
    simp only
    omega
  generalize month % 12 = mn at *
  generalize year + month / 12 = ym at *
  generalize hleap : (if DaysInYear ym = 366 then (1 : Int) else 0) = leap at hday
  have hl : 0 ≤ leap ∧ leap ≤ 1 := by
    rw [← hleap]
    split <;> omega
  have hdiy : DaysInYear ym = 365 + leap := by
    have : DaysInYear ym = 365 ∨ DaysInYear ym = 366 := by
      unfold DaysInYear
      omega
    rw [← hleap]
    split <;> omega
  have hb0 : 0 ≤ daysBeforeMonth mn leap := by
    unfold daysBeforeMonth
    omega
  have hb1 := daysBeforeMonth_le_last mn leap hl.1
  have hy : YearFromTime (MakeDate (MakeDay year month 1) 0) = ym := by
    unfold YearFromTime
    rw [hday]
    apply yearFromDay_unique
    · omega
    · rw [DayFromYear_succ]
      omega
  have hw : DayWithinYear (MakeDate (MakeDay year month 1) 0) = daysBeforeMonth mn leap := by
    unfold DayWithinYear
    rw [hy, hday]
    omega
  have hil : InLeapYear (MakeDate (MakeDay year month 1) 0) = leap := by
    unfold InLeapYear
    rw [hy, hleap]
  have hm : MonthFromTime (MakeDate (MakeDay year month 1) 0) = mn := by
    unfold MonthFromTime
    rw [hw, hil]
    apply monthOfYearDay_eq _ _ _ hmn0 (by omega) hl.1 hl.2 (le_refl _)
    intro h
    exact daysBeforeMonth_lt_succ mn leap hmn0 h hl.1 hl.2
  refine ⟨hy, hm, ?_⟩
  have hd := dateOfYearDay_eq (daysBeforeMonth mn leap) leap
  unfold MonthFromTime at hm
  rw [hw, hil] at hm
  unfold DateFromTime
  rw [hw, hil, hd, hm]
  omega

theorem MonthFromTime_range (t : Int) : 0 ≤ MonthFromTime t ∧ MonthFromTime t ≤ 11 :=
  monthOfYearDay_range _ _

theorem DateFromTime_range (t : Int) : 1 ≤ DateFromTime t ∧ DateFromTime t ≤ 31 := by
  obtain ⟨hw0, hw1⟩ := DayWithinYear_range t
  have hl : 0 ≤ InLeapYear t ∧ InLeapYear t ≤ 1 := by
    unfold InLeapYear
    split <;> omega
  obtain ⟨hm0, hm11⟩ := monthOfYearDay_range (DayWithinYear t) (InLeapYear t)
  have hlo := daysBeforeMonth_le (DayWithinYear t) (InLeapYear t) hw0
  have hhi := lt_daysBeforeMonth_succ (DayWithinYear t) (InLeapYear t)
  have hd := dateOfYearDay_eq (DayWithinYear t) (InLeapYear t)
  show 1 ≤ dateOfYearDay _ _ ∧ dateOfYearDay _ _ ≤ 31
  rw [hd]
  generalize monthOfYearDay (DayWithinYear t) (InLeapYear t) = m at *
  generalize DayWithinYear t = w at *
  generalize InLeapYear t = leap at *
  constructor
  · omega
  · by_cases h11 : m = 11
    · subst h11
      unfold daysBeforeMonth
      omega
    · have := hhi (by omega)
      unfold daysBeforeMonth at this ⊢
      omega

/-! ## Decimal digits -/

theorem toDigitsCore_lt {fuel n : Nat} (ds : List Char) (hf : 0 < fuel) (h : n < 10) :
    Nat.toDigitsCore 10 fuel n ds = Nat.digitChar n :: ds := by
  cases fuel with
  | zero => omega
  | succ k => simp [Nat.toDigitsCore, Nat.div_eq_of_lt h, Nat.mod_eq_of_lt h]

theorem toDigitsCore_ge {fuel n : Nat} (ds : List Char) (hf : 0 < fuel) (h : 10 ≤ n) :
    Nat.toDigitsCore 10 fuel n ds =
      Nat.toDigitsCore 10 (fuel - 1) (n / 10) (Nat.digitChar (n % 10) :: ds) := by
  cases fuel with
  | zero => omega
  | succ k =>
    have : n / 10 ≠ 0 := by omega
    simp [Nat.toDigitsCore, this]

theorem toDigits_one {n : Nat} (h : n < 10) : Nat.toDigits 10 n = [Nat.digitChar n] := by
  unfold Nat.toDigits
  rw [toDigitsCore_lt _ (by omega) h]

theorem toDigits_two {n : Nat} (h1 : 10 ≤ n) (h2 : n < 100) :
    Nat.toDigits 10 n = twoDigits n := by
  unfold Nat.toDigits twoDigits
  rw [toDigitsCore_ge _ (by omega) h1, toDigitsCore_lt _ (by omega) (by omega)]

theorem toDigits_four {n : Nat} (h1 : 1000 ≤ n) (h2 : n < 10000) :
    Nat.toDigits 10 n = fourDigits n := by
  unfold Nat.toDigits fourDigits
  rw [toDigitsCore_ge _ (by omega) (by omega), toDigitsCore_ge _ (by omega) (by omega),
    toDigitsCore_ge _ (by omega) (by omega), toDigitsCore_lt _ (by omega) (by omega)]
  have e1 : n / 10 / 10 / 10 = n / 1000 := by omega
  have e2 : n / 10 / 10 % 10 = n / 100 % 10 := by omega
  rw [e1, e2]

theorem padStart_numberToString (n : Nat) (h : n < 100) :
    padStart (numberToString (n : Int)) 2 '0' = twoDigits n := by
  have hn : numberToString (n : Int) = Nat.toDigits 10 n := by
    unfold numberToString
    rw [if_neg (by omega)]
    simp
  rw [hn]
  by_cases h10 : n < 10
  · rw [toDigits_one h10]
    unfold padStart twoDigits
    rw [Nat.div_eq_of_lt h10, Nat.mod_eq_of_lt h10]
    rfl
  · rw [toDigits_two (by omega) h]
    unfold padStart twoDigits
    simp

/-! ## The text of `formatDate` -/

/-- For a valid date the month and day parts of `formatDate` are always two digits; the year
part is the plain decimal form of the year. -/
theorem formatDate_valid (tz : TimeZone) (t : Int) :
    formatDate tz ⟨some t⟩ = numberToString (YearFromTime (LocalTime tz t)) ++
      '-' :: twoDigits (MonthFromTime (LocalTime tz t) + 1).toNat ++
      '-' :: twoDigits (DateFromTime (LocalTime tz t)).toNat := by
  obtain ⟨hm0, hm11⟩ := MonthFromTime_range (LocalTime tz t)
  obtain ⟨hd1, hd31⟩ := DateFromTime_range (LocalTime tz t)
  show numberToString (YearFromTime (LocalTime tz t)) ++
      '-' :: padStart (numberToString (MonthFromTime (LocalTime tz t) + 1)) 2 '0' ++
      '-' :: padStart (numberToString (DateFromTime (LocalTime tz t))) 2 '0' = _
  have e1 : MonthFromTime (LocalTime tz t) + 1 =
      (((MonthFromTime (LocalTime tz t) + 1).toNat : Nat) : Int) := by omega
  have e2 : DateFromTime (LocalTime tz t) =
      (((DateFromTime (LocalTime tz t)).toNat : Nat) : Int) := by omega
  conv_lhs => rw [e1, e2]
  rw [padStart_numberToString _ (by omega), padStart_numberToString _ (by omega)]

/-- For an Invalid Date every getter returns `NaN`, and so does every part of the text. -/
theorem formatDate_invalid (tz : TimeZone) :
    formatDate tz ⟨none⟩ = "NaN-NaN-NaN".toList := rfl

theorem formatDate_of_calendarOf {tz : TimeZone} {t : Int} {y m d : Nat}
    (h : calendarOf (LocalTime tz t) = ⟨y, m, d⟩) :
    formatDate tz ⟨some t⟩ = numberToString y ++ '-' :: twoDigits m ++ '-' :: twoDigits d := by
  have hy : YearFromTime (LocalTime tz t) = y := congrArg CalendarDate.year h
  have hm : MonthFromTime (LocalTime tz t) + 1 = m := congrArg CalendarDate.month h
  have hd : DateFromTime (LocalTime tz t) = d := congrArg CalendarDate.day h
  rw [formatDate_valid, hy, hm, hd]
  simp

theorem numberToString_fourDigits {y : Int} (h1 : 1000 ≤ y) (h2 : y ≤ 9999) :
    numberToString y = fourDigits y.toNat := by
  unfold numberToString
  rw [if_neg (by omega)]
  exact toDigits_four (by omega) (by omega)

/-! ## Date bounds -/

/-- In a zone with a fixed offset every local time is shown by the clocks; only the range
of `TimeClip` can fail. -/
theorem fixed_shows (offset x : Int) :
    (TimeZone.fixed offset).shows x ↔ TimeClip (x - offset) = some (x - offset) := by
  unfold TimeZone.shows LocalTime UTC TimeZone.fixed
  simp

/-- The bounds written by the initialisation, for a valid `today` and local times 7 and 60
days later that the zone shows: the instants of those two local times. -/
theorem initTestDate_valid (tz : TimeZone) (now : Int) (input : DateInput)
    (hnow : TimeClip now = some now)
    (hmin : tz.shows (LocalTime tz now + 7 * msPerDay))
    (hmax : tz.shows (LocalTime tz now + 60 * msPerDay)) :
    initTestDate tz (Date.ofTimeValue now) (some input) =
      some { min := some (formatDate tz ⟨some (UTC tz (LocalTime tz now + 7 * msPerDay))⟩),
             max := some (formatDate tz ⟨some (UTC tz (LocalTime tz now + 60 * msPerDay))⟩) } := by
  have htoday : Date.ofTimeValue now = ⟨some now⟩ := by
    unfold Date.ofTimeValue
    rw [hnow]
  have hcopy : Date.copy ⟨some now⟩ = ⟨some now⟩ := by
    unfold Date.copy
    simp [hnow]
  unfold initTestDate
  simp only
  rw [htoday, hcopy, setDate_getDate_add, setDate_getDate_add, hmin.1, hmax.1]

/-- The initialisation on sample days in a zone with a fixed offset: a month end, a year
end, and the end of February in a leap year and in a common year. -/
theorem initTestDate_samples :
    initTestDate (TimeZone.fixed 0) (Date.ofComponents (TimeZone.fixed 0) 2024 0 28)
        (some ⟨none, none⟩)
      = some ⟨some "2024-02-04".toList, some "2024-03-28".toList⟩ ∧
    initTestDate (TimeZone.fixed 0) (Date.ofComponents (TimeZone.fixed 0) 2023 11 28)
        (some ⟨none, none⟩)
      = some ⟨some "2024-01-04".toList, some "2024-02-26".toList⟩ ∧
    initTestDate (TimeZone.fixed 19800000)
        (Date.ofComponents (TimeZone.fixed 19800000) 2024 1 25) (some ⟨none, none⟩)
      = some ⟨some "2024-03-03".toList, some "2024-04-25".toList⟩ ∧
    initTestDate (TimeZone.fixed (-18000000))
        (Date.ofComponents (TimeZone.fixed (-18000000)) 2023 1 25) (some ⟨none, none⟩)
      = some ⟨some "2023-03-04".toList, some "2023-04-26".toList⟩ ∧
    initTestDate (TimeZone.fixed 0) (Date.ofComponents (TimeZone.fixed 0) 2024 0 28) none
      = none := by
  refine ⟨?_, ?_, ?_, ?_, ?_⟩ <;> rfl

/-- C6 as stated fails in two ways.  At the valid date 275760-09-10 (UTC) both `today + 7`
and `today + 60` lie beyond the range of `Date`, and both attributes become `NaN-NaN-NaN`.
In the zone `Pacific/Apia`, whose calendar has no 30 December 2011, `today` 2011-12-23
gives `min` 2011-12-31, while the calendar day 7 days after 2011-12-23 is 2011-12-30. -/
theorem testDate_bounds_counterexample :
    (formatDate (TimeZone.fixed 0) (Date.ofTimeValue 8639999740800000) = "275760-09-10".toList ∧
      initTestDate (TimeZone.fixed 0) (Date.ofTimeValue 8639999740800000) (some ⟨none, none⟩)
        = some ⟨some "NaN-NaN-NaN".toList, some "NaN-NaN-NaN".toList⟩) ∧
    (formatDate TimeZone.apia2011 (Date.ofComponents TimeZone.apia2011 2011 11 23)
        = "2011-12-23".toList ∧
      initTestDate TimeZone.apia2011 (Date.ofComponents TimeZone.apia2011 2011 11 23)
          (some ⟨none, none⟩)
        = some ⟨some "2011-12-31".toList, some "2012-02-21".toList⟩ ∧
      addDays 7 ⟨2011, 12, 23⟩ = ⟨2011, 12, 30⟩) := by
  refine ⟨⟨?_, ?_⟩, ?_, ?_, ?_⟩ <;> rfl

/-- C6 (amended). Date bounds: for every time zone and every valid `today`, if the local
times 7 and 60 days after today's local time are shown by the zone's clocks (not skipped by
a clock change) and lie within the range of `Date`, then, when the `test_date` field exists,
the initialisation sets `min` to `formatDate` of a date whose calendar day is 7 days after
today's and `max` to `formatDate` of a date whose calendar day is 60 days after today's,
the days being counted on the calendar (month lengths, leap years, year ends); under these
conditions, at any time of day on 2024-01-28 `min` is `2024-02-04`, and on 2023-12-28 it is
`2024-01-04`. -/
theorem testDate_bounds (tz : TimeZone) (now : Int) (input : DateInput)
    (hnow : TimeClip now = some now)
    (hmin : tz.shows (LocalTime tz now + 7 * msPerDay))
    (hmax : tz.shows (LocalTime tz now + 60 * msPerDay)) :
    (∃ (todayDay : CalendarDate) (minDate maxDate : Date),
      (Date.ofTimeValue now).calendarDate tz = some todayDay ∧
      initTestDate tz (Date.ofTimeValue now) (some input) =
        some { min := some (formatDate tz minDate), max := some (formatDate tz maxDate) } ∧
      minDate.calendarDate tz = some (addDays 7 todayDay) ∧
      maxDate.calendarDate tz = some (addDays 60 todayDay)) ∧
    ((Date.ofTimeValue now).calendarDate tz = some ⟨2024, 1, 28⟩ →
      (initTestDate tz (Date.ofTimeValue now) (some input)).map DateInput.min =
        some (some "2024-02-04".toList)) ∧
    ((Date.ofTimeValue now).calendarDate tz = some ⟨2023, 12, 28⟩ →
      (initTestDate tz (Date.ofTimeValue now) (some input)).map DateInput.min =
        some (some "2024-01-04".toList)) := by
  have hinit := initTestDate_valid tz now input hnow hmin hmax
  have htoday : (Date.ofTimeValue now).calendarDate tz = some (calendarOf (LocalTime tz now)) := by
    unfold Date.ofTimeValue Date.calendarDate
    rw [hnow]
    rfl
  have hcmin : calendarOf (LocalTime tz (UTC tz (LocalTime tz now + 7 * msPerDay)))
      = addDays 7 (calendarOf (LocalTime tz now)) := by
    rw [hmin.2]
    exact calendarOf_add_days 7 (LocalTime tz now)
  have hcmax : calendarOf (LocalTime tz (UTC tz (LocalTime tz now + 60 * msPerDay)))
      = addDays 60 (calendarOf (LocalTime tz now)) := by
    rw [hmax.2]
    exact calendarOf_add_days 60 (LocalTime tz now)
  refine ⟨⟨_, _, _, htoday, hinit, congrArg some hcmin, congrArg some hcmax⟩, ?_, ?_⟩
  · intro h
    rw [htoday] at h
    have h7 : addDays 7 (⟨2024, 1, 28⟩ : CalendarDate) = ⟨(2024 : Nat), (2 : Nat), (4 : Nat)⟩ := by
      decide
    rw [Option.some.inj h, h7] at hcmin
    rw [hinit, formatDate_of_calendarOf hcmin]
    rfl
  · intro h
    rw [htoday] at h
    have h7 : addDays 7 (⟨2023, 12, 28⟩ : CalendarDate) = ⟨(2024 : Nat), (1 : Nat), (4 : Nat)⟩ := by
      decide
    rw [Option.some.inj h, h7] at hcmin
    rw [hinit, formatDate_of_calendarOf hcmin]
    rfl

theorem testDate_bounds_witness :
    (initTestDate (TimeZone.fixed 0) (Date.ofTimeValue 1706443200000)
        (some ⟨none, none⟩)).map DateInput.min = some (some "2024-02-04".toList) ∧
    (initTestDate (TimeZone.fixed 3600000) (Date.ofTimeValue 1703790000000)
        (some ⟨none, none⟩)).map DateInput.min = some (some "2024-01-04".toList) :=
  ⟨(testDate_bounds (TimeZone.fixed 0) 1706443200000 ⟨none, none⟩ (by decide) (by decide)
      (by decide)).2.1 (by decide),
   (testDate_bounds (TimeZone.fixed 3600000) 1703790000000 ⟨none, none⟩ (by decide) (by decide)
      (by decide)).2.2 (by decide)⟩

/-! ## Date format -/

/-- C7 as stated fails for a date in the year 10000, where `formatDate` returns
`10000-01-01`, whose year part has five digits and which has 11 characters; and for an
Invalid Date, where it returns `NaN-NaN-NaN`. -/
theorem formatDate_year_10000_counterexample :
    formatDate (TimeZone.fixed 0) (Date.ofComponents (TimeZone.fixed 0) 10000 0 1)
      = "10000-01-01".toList ∧
    (formatDate (TimeZone.fixed 0) (Date.ofComponents (TimeZone.fixed 0) 10000 0 1)).length ≠ 10 ∧
    formatDate (TimeZone.fixed 0) ⟨none⟩ = "NaN-NaN-NaN".toList := by
  refine ⟨?_, ?_, ?_⟩
  · rfl
  · decide
  · rfl

/-- C7 (amended). Date format: for an Invalid Date `formatDate` returns `NaN-NaN-NaN`; for
every valid date it returns the decimal form of the year, `-`, the month number (one more
than the zero-based month, in 1..12) as two digits with a leading zero, `-`, and the day of
the month (in 1..31) as two digits with a leading zero; and when the year of a valid date is
in 1000..9999 the year part is its four digits and the result has exactly 10 characters. -/
theorem formatDate_shape (tz : TimeZone) (date : Date) :
    (date.timeValue = none → formatDate tz date = "NaN-NaN-NaN".toList) ∧
    (date.timeValue ≠ none →
      ∃ (y : Int) (m d : Nat),
        date.getFullYear tz = some y ∧
        date.getMonth tz = some ((m : Int) - 1) ∧ 1 ≤ m ∧ m ≤ 12 ∧
        date.getDate tz = some (d : Int) ∧ 1 ≤ d ∧ d ≤ 31 ∧
        formatDate tz date = numberToString y ++ '-' :: twoDigits m ++ '-' :: twoDigits d ∧
        (1000 ≤ y → y ≤ 9999 →
          formatDate tz date = fourDigits y.toNat ++ '-' :: twoDigits m ++ '-' :: twoDigits d ∧
          (formatDate tz date).length = 10)) := by
  obtain ⟨tv⟩ := date
  cases tv with
  | none => exact ⟨fun _ => rfl, fun h => absurd rfl h⟩
  | some t =>
    refine ⟨fun h => by simp at h, fun _ => ?_⟩
    obtain ⟨hm0, hm11⟩ := MonthFromTime_range (LocalTime tz t)
    obtain ⟨hd1, hd31⟩ := DateFromTime_range (LocalTime tz t)
    refine ⟨YearFromTime (LocalTime tz t), (MonthFromTime (LocalTime tz t) + 1).toNat,
      (DateFromTime (LocalTime tz t)).toNat, rfl, ?_, by omega, by omega, ?_, by omega, by omega,
      formatDate_valid tz t, ?_⟩
    · show some (MonthFromTime (LocalTime tz t)) = _
      congr 1
      omega
    · show some (DateFromTime (LocalTime tz t)) = _
      congr 1
      omega
    · intro hy1 hy2
      rw [formatDate_valid, numberToString_fourDigits hy1 hy2]
      exact ⟨rfl, by simp [fourDigits, twoDigits]⟩

theorem formatDate_shape_witness :
    formatDate (TimeZone.fixed 0) ⟨none⟩ = "NaN-NaN-NaN".toList ∧
    formatDate (TimeZone.fixed 0) (Date.ofComponents (TimeZone.fixed 0) 2024 1 29)
      = "2024-02-29".toList ∧
    (formatDate (TimeZone.fixed 0) (Date.ofComponents (TimeZone.fixed 0) 2024 1 29)).length
      = 10 := by
  refine ⟨(formatDate_shape (TimeZone.fixed 0) ⟨none⟩).1 rfl, ?_⟩
  obtain ⟨y, m, d, hy, hm, _, _, hd, _, _, _, h⟩ :=
    (formatDate_shape (TimeZone.fixed 0) (Date.ofComponents (TimeZone.fixed 0) 2024 1 29)).2
      (by decide)
  have hy2 : y = 2024 := by
    have : (Date.ofComponents (TimeZone.fixed 0) 2024 1 29).getFullYear (TimeZone.fixed 0)
        = some 2024 := by decide
    rw [this] at hy
    exact (Option.some.inj hy).symm
  have hm2 : m = 2 := by
    have : (Date.ofComponents (TimeZone.fixed 0) 2024 1 29).getMonth (TimeZone.fixed 0)
        = some 1 := by decide
    rw [this] at hm
    have := Option.some.inj hm
    omega
  have hd2 : d = 29 := by
    have : (Date.ofComponents (TimeZone.fixed 0) 2024 1 29).getDate (TimeZone.fixed 0)
        = some 29 := by decide
    rw [this] at hd
    have := Option.some.inj hd
    omega
  subst hy2 hm2 hd2
  obtain ⟨h1, h2⟩ := h (by decide) (by decide)
  exact ⟨h1.trans (by decide), h2⟩

/-! ## Typing, length bounds and the redundant trim -/

theorem take_take_append (n : Nat) (a b : JsString) :
    (a.take n ++ b).take n = (a ++ b).take n := by
  by_cases h : a.length ≤ n
  · rw [List.take_of_length_le h]
  · have h1 : n ≤ (a.take n).length := by rw [List.length_take]; omega
    have h2 : n ≤ a.length := by omega
    rw [List.take_append_of_le_length h1, List.take_append_of_le_length h2, List.take_take]
    simp

theorem stripNonDigits_append (a b : JsString) :
    stripNonDigits (a ++ b) = stripNonDigits a ++ stripNonDigits b :=
  List.filter_append _ _

theorem stripNonDigits_cardNumber (s : JsString) :
    stripNonDigits (cardNumberInput_onInput s) = (stripNonDigits s).take 16 := by
  have hd : ∀ c ∈ (stripNonDigits s).take 16, isDigitChar c = true := fun c hc =>
    (List.mem_filter.mp (List.mem_of_mem_take hc)).2
  rw [cardNumberInput_onInput_eq]
  unfold stripNonDigits at hd ⊢
  rw [insertGroupSpaces_filter _ (by decide) _ hd]
  exact List.filter_eq_self.mpr hd

theorem stripNonDigits_cardExpiry (s : JsString) :
    stripNonDigits (cardExpiryInput_onInput s) = (stripNonDigits s).take 4 := by
  have hd : ∀ c ∈ (stripNonDigits s).take 4, isDigitChar c = true := fun c hc =>
    (List.mem_filter.mp (List.mem_of_mem_take hc)).2
  rw [cardExpiryInput_onInput_eq]
  generalize (stripNonDigits s).take 4 = d at hd
  split
  · have h1 : stripNonDigits (d.take 2) = d.take 2 :=
      stripNonDigits_of_digits (fun c hc => hd c (List.mem_of_mem_take hc))
    have h2 : stripNonDigits (d.drop 2) = d.drop 2 :=
      stripNonDigits_of_digits (fun c hc => hd c (List.mem_of_mem_drop hc))
    unfold stripNonDigits at h1 h2 ⊢
    rw [List.filter_append, List.filter_cons_of_neg (by decide), h1, h2, List.take_append_drop]
  · exact stripNonDigits_of_digits hd

theorem cardCvvInput_onInput_eq (s : JsString) :
    cardCvvInput_onInput s = (stripNonDigits s).take 3 := by
  simp only [cardCvvInput_onInput, limitLength_eq_take]

theorem stripNonDigits_cardCvv (s : JsString) :
    stripNonDigits (cardCvvInput_onInput s) = (stripNonDigits s).take 3 := by
  rw [cardCvvInput_onInput_eq]
  exact stripNonDigits_of_digits (fun c hc => (List.mem_filter.mp (List.mem_of_mem_take hc)).2)

theorem cardNumber_remask (s t : JsString) :
    cardNumberInput_onInput (cardNumberInput_onInput s ++ t) = cardNumberInput_onInput (s ++ t) := by
  rw [cardNumberInput_onInput_eq (s ++ t), cardNumberInput_onInput_eq (_ ++ t),
    stripNonDigits_append, stripNonDigits_append, stripNonDigits_cardNumber, take_take_append]

theorem cardExpiry_remask (s t : JsString) :
    cardExpiryInput_onInput (cardExpiryInput_onInput s ++ t) = cardExpiryInput_onInput (s ++ t) := by
  rw [cardExpiryInput_onInput_eq (s ++ t), cardExpiryInput_onInput_eq (_ ++ t),
    stripNonDigits_append, stripNonDigits_append, stripNonDigits_cardExpiry, take_take_append]

theorem cardCvv_remask (s t : JsString) :
    cardCvvInput_onInput (cardCvvInput_onInput s ++ t) = cardCvvInput_onInput (s ++ t) := by
  rw [cardCvvInput_onInput_eq (s ++ t), cardCvvInput_onInput_eq (_ ++ t),
    stripNonDigits_append, stripNonDigits_append, stripNonDigits_cardCvv, take_take_append]

/-- Typing a text one character at a time into an empty field that is re-masked by `f` after
every character ends with `f` of the whole text, when `f` absorbs its own output. -/
theorem typing_eq_paste (f : JsString → JsString) (hnil : f [] = [])
    (hre : ∀ s t, f (f s ++ t) = f (s ++ t)) (s : JsString) :
    s.foldl (fun field c => f (field ++ [c])) [] = f s := by
  induction s using List.reverseRecOn with
  | nil => exact hnil.symm
  | append_singleton l c ih => rw [List.foldl_append, ih]; exact hre l [c]

/-- C13. Incremental-typing consistency: for the card-number, the expiry and the CVV
formatter `f` and all texts `s` and `t`, `f (f s ++ t) = f (s ++ t)`; so typing a text
character by character into the empty field, re-masking after each one, leaves the same
content as pasting the whole text. -/
theorem formatters_incremental (s t : JsString) :
    cardNumberInput_onInput (cardNumberInput_onInput s ++ t) = cardNumberInput_onInput (s ++ t) ∧
    cardExpiryInput_onInput (cardExpiryInput_onInput s ++ t) = cardExpiryInput_onInput (s ++ t) ∧
    cardCvvInput_onInput (cardCvvInput_onInput s ++ t) = cardCvvInput_onInput (s ++ t) ∧
    s.foldl (fun field c => cardNumberInput_onInput (field ++ [c])) [] =
      cardNumberInput_onInput s ∧
    s.foldl (fun field c => cardExpiryInput_onInput (field ++ [c])) [] =
      cardExpiryInput_onInput s ∧
    s.foldl (fun field c => cardCvvInput_onInput (field ++ [c])) [] =
      cardCvvInput_onInput s :=
  ⟨cardNumber_remask s t, cardExpiry_remask s t, cardCvv_remask s t,
    typing_eq_paste _ (by decide) cardNumber_remask s,
    typing_eq_paste _ (by decide) cardExpiry_remask s,
    typing_eq_paste _ (by decide) cardCvv_remask s⟩

theorem insertGroupSpaces_length (v : JsString) (hv : ∀ x ∈ v, isDigitChar x = true) :
    (insertGroupSpaces v).length = v.length + (v.length - 1) / 4 := by
  refine digits_group_induction
    (motive := fun v => (insertGroupSpaces v).length = v.length + (v.length - 1) / 4)
    ?_ ?_ ?_ v hv
  · simp [insertGroupSpaces]
  · intro a l hl _
    rw [insertGroupSpaces_short _ hl]
    simp only [List.length_cons] at hl ⊢
    omega
  · intro a b c d e rest h ih
    rw [insertGroupSpaces_five h]
    simp only [List.length_cons] at ih ⊢
    omega

theorem stripNonDigits_ne_nil {s : JsString} (h : ∃ c ∈ s, c.isDigit = true) :
    stripNonDigits s ≠ [] := by
  obtain ⟨c, hc, hd⟩ := h
  exact List.ne_nil_of_mem (List.mem_filter.mpr ⟨hc, hd⟩)

theorem take_ne_nil {l : JsString} (h : l ≠ []) (n : Nat) : l.take (n + 1) ≠ [] := by
  cases l with
  | nil => exact absurd rfl h
  | cons a t => simp

/-- C14. Output length bounds: for every input text the card-number output has at most 19
characters, the expiry output at most 5 and the CVV output at most 3; and each output is
non-empty whenever the input contains at least one digit. -/
theorem formatters_length_bounds (s : JsString) :
    (cardNumberInput_onInput s).length ≤ 19 ∧
    (cardExpiryInput_onInput s).length ≤ 5 ∧
    (cardCvvInput_onInput s).length ≤ 3 ∧
    ((∃ c ∈ s, c.isDigit = true) →
      cardNumberInput_onInput s ≠ [] ∧ cardExpiryInput_onInput s ≠ [] ∧
        cardCvvInput_onInput s ≠ []) := by
  refine ⟨?_, ?_, ?_, ?_⟩
  · have hd : ∀ c ∈ (stripNonDigits s).take 16, isDigitChar c = true := fun c hc =>
      (List.mem_filter.mp (List.mem_of_mem_take hc)).2
    have hlen : ((stripNonDigits s).take 16).length ≤ 16 := List.length_take_le _ _
    rw [cardNumberInput_onInput_eq, insertGroupSpaces_length _ hd]
    omega
  · have hlen : ((stripNonDigits s).take 4).length ≤ 4 := List.length_take_le _ _
    rw [cardExpiryInput_onInput_eq]
    split
    · simp only [List.length_append, List.length_cons, List.length_take, List.length_drop]
      omega
    · omega
  · rw [cardCvvInput_onInput_eq]
    exact List.length_take_le _ _
  · intro h
    have hne := stripNonDigits_ne_nil h
    refine ⟨?_, ?_, ?_⟩
    · rw [cardNumberInput_onInput_eq]
      exact mt (insertGroupSpaces_eq_nil _).mp (take_ne_nil hne 15)
    · rw [cardExpiryInput_onInput_eq]
      split
      · simp
      · exact take_ne_nil hne 3
    · rw [cardCvvInput_onInput_eq]
      exact take_ne_nil hne 2

theorem formatters_length_bounds_witness :
    cardNumberInput_onInput "x1".toList ≠ [] ∧ cardExpiryInput_onInput "x1".toList ≠ [] ∧
      cardCvvInput_onInput "x1".toList ≠ [] :=
  (formatters_length_bounds "x1".toList).2.2.2 ⟨'1', by decide, by decide⟩

/-- The chunks of 4 on sample digit strings. -/
theorem chunksOfFour_spec_samples :
    chunksOfFour_spec "12345".toList = ["1234".toList, "5".toList] ∧
    chunksOfFour_spec "1234".toList = ["1234".toList] ∧
    chunksOfFour_spec [] = [] ∧
    joinChunks_spec "1234567890123456".toList = "1234 5678 9012 3456".toList := by
  decide

theorem groupsOfFour_eq_spec (v : JsString) : groupsOfFour v = chunksOfFour_spec v := by
  refine groups_induction (motive := fun v => groupsOfFour v = chunksOfFour_spec v) ?_ ?_ ?_ v
  · rfl
  · intro a l h
    rw [groupsOfFour_short a l h]
    unfold chunksOfFour_spec
    have hn : ((a :: l).length + 3) / 4 = 1 := by
      have h2 : l.length + 1 ≤ 4 := h
      show (l.length + 1 + 3) / 4 = 1
      omega
    rw [hn]
    show [a :: l] = [List.take 4 (List.drop (4 * 0) (a :: l))]
    rw [Nat.mul_zero, List.drop_zero, List.take_of_length_le h]
  · intro a b c d e rest ih
    rw [groupsOfFour_five, ih]
    unfold chunksOfFour_spec
    have hn : ((a :: b :: c :: d :: e :: rest).length + 3) / 4 =
        ((e :: rest).length + 3) / 4 + 1 := by
      simp only [List.length_cons]
      omega
    rw [hn, List.range_succ_eq_map, List.map_cons, List.map_map]
    congr 1

/-- C16. The trailing trim is redundant: for every digit string `v` (of any length, so also
of length at most 16) the regex replacement alone yields a text that neither starts nor ends
with a white-space character, `trim()` returns it unchanged, and it equals the consecutive
chunks of 4 of `v` joined with a single space. -/
theorem trim_redundant (v : JsString) (hv : ∀ c ∈ v, c.isDigit = true) :
    (∀ c, (insertGroupSpaces v).head? = some c → isTrimChar c = false) ∧
    (∀ c, (insertGroupSpaces v).getLast? = some c → isTrimChar c = false) ∧
    jsTrim (insertGroupSpaces v) = insertGroupSpaces v ∧
    insertGroupSpaces v = joinChunks_spec v ∧
    cardNumberInput_onInput v = joinChunks_spec (v.take 16) := by
  have hv2 : ∀ c ∈ v, isDigitChar c = true := hv
  refine ⟨?_, ?_, jsTrim_insertGroupSpaces v hv2, ?_, ?_⟩
  · intro c hc
    cases v with
    | nil => simp [insertGroupSpaces] at hc
    | cons a l =>
      rw [insertGroupSpaces_head] at hc
      cases hc
      exact isTrimChar_of_digit (hv2 _ (by simp))
  · intro c hc
    rw [insertGroupSpaces_getLast v hv2] at hc
    exact isTrimChar_of_digit (hv2 c (List.mem_of_getLast?_eq_some hc))
  · rw [insertGroupSpaces_eq_intercalate v hv2, groupsOfFour_eq_spec]
    rfl
  · rw [cardNumberInput_onInput_eq, stripNonDigits_of_digits hv2,
      insertGroupSpaces_eq_intercalate _ (fun c hc => hv2 c (List.mem_of_mem_take hc)),
      groupsOfFour_eq_spec]
    rfl

theorem trim_redundant_witness :
    jsTrim (insertGroupSpaces "4111111111111111".toList) =
      insertGroupSpaces "4111111111111111".toList ∧
    insertGroupSpaces "4111111111111111".toList = "4111 1111 1111 1111".toList :=
  ⟨(trim_redundant "4111111111111111".toList (by decide)).2.2.1,
   (trim_redundant "4111111111111111".toList (by decide)).2.2.2.1.trans (by decide)⟩

/-! ## Initialisation and frame -/

/-- C11 as stated fails on a page that has `#card_number` but no `#payment-form`: the
initialisation succeeds but registers no `input` listener on the field, and an input event
leaves its value `12345` unmasked. -/
theorem cardNumber_without_paymentForm_counterexample :
    cardNumberOnlyPage.cardNumberInput = some "12345".toList ∧
    initPage (TimeZone.fixed 0) (Date.ofComponents (TimeZone.fixed 0) 2024 0 28)
        cardNumberOnlyPage =
      Except.ok (cardNumberOnlyPage,
        { formSubmit := 0, fileChange := false, cardNumberInput := false,
          cardExpiryInput := false, cardCvvInput := false }) ∧
    (dispatch
        { formSubmit := 0, fileChange := false, cardNumberInput := false,
          cardExpiryInput := false, cardCvvInput := false }
        PageEvent.cardNumberInput cardNumberOnlyPage).cardNumberInput = some "12345".toList := by
  refine ⟨rfl, rfl, rfl⟩

/-- C11 (amended). Absent elements: for every combination of present and absent elements the
initialisation ends without error; it changes nothing on the page but the bounds of
`#test_date`, set exactly when that field exists; every flagged form gets its `submit`
listener; the `change` listener exists exactly when `#document` and `#document-label` both
exist; and the `input` listener of each payment field exists exactly when `#payment-form`
and that field both exist, whatever else is absent.  A registered masker then masks its
field on an input event. -/
theorem initPage_features (tz : TimeZone) (today : Date) (page : Page) :
    ∃ listeners : Listeners,
      initPage tz today page =
        Except.ok ({ page with testDateInput := initTestDate tz today page.testDateInput },
          listeners) ∧
      listeners.formSubmit = page.forms.length ∧
      (listeners.fileChange = true ↔
        page.fileInput.isSome = true ∧ page.fileLabel.isSome = true) ∧
      (listeners.cardNumberInput = true ↔
        page.paymentForm.isSome = true ∧ page.cardNumberInput.isSome = true) ∧
      (listeners.cardExpiryInput = true ↔
        page.paymentForm.isSome = true ∧ page.cardExpiryInput.isSome = true) ∧
      (listeners.cardCvvInput = true ↔
        page.paymentForm.isSome = true ∧ page.cardCvvInput.isSome = true) ∧
      (∀ value, page.paymentForm.isSome = true → page.cardNumberInput = some value →
        (dispatch listeners PageEvent.cardNumberInput page).cardNumberInput =
          some (cardNumberInput_onInput value)) ∧
      (∀ value, page.paymentForm.isSome = true → page.cardExpiryInput = some value →
        (dispatch listeners PageEvent.cardExpiryInput page).cardExpiryInput =
          some (cardExpiryInput_onInput value)) ∧
      (∀ value, page.paymentForm.isSome = true → page.cardCvvInput = some value →
        (dispatch listeners PageEvent.cardCvvInput page).cardCvvInput =
          some (cardCvvInput_onInput value)) := by
  obtain ⟨forms, fi, fp, fl, td, pf, cn, ce, cc⟩ := page
  cases fi <;> cases fl <;> cases td <;> cases pf <;> cases cn <;> cases ce <;> cases cc <;>
    exact ⟨_, rfl, rfl, by simp, by simp, by simp, by simp,
      by simp [dispatch], by simp [dispatch], by simp [dispatch]⟩

theorem initPage_features_witness :
    ∃ listeners : Listeners,
      initPage (TimeZone.fixed 0) (Date.ofComponents (TimeZone.fixed 0) 2024 0 28)
          { cardNumberOnlyPage with paymentForm := some () } =
        Except.ok ({ cardNumberOnlyPage with paymentForm := some () }, listeners) ∧
      (dispatch listeners PageEvent.cardNumberInput
          { cardNumberOnlyPage with paymentForm := some () }).cardNumberInput =
        some "1234 5".toList := by
  obtain ⟨listeners, h1, _, _, _, _, _, h2, _, _⟩ :=
    initPage_features (TimeZone.fixed 0) (Date.ofComponents (TimeZone.fixed 0) 2024 0 28)
      { cardNumberOnlyPage with paymentForm := some () }
  exact ⟨listeners, h1, h2 "12345".toList rfl rfl⟩

/-- C12. Frame property: whatever listeners are registered, an input event on the
card-number field changes nothing on the page but that field's value, one on the expiry
field nothing but the expiry value, one on the CVV field nothing but the CVV value, and a
change event on the file picker nothing but the label's text; the new value of a field is
the masker applied to its current value, the new label is determined by the picker's files,
and neither depends on anything else on the page. -/
theorem handlers_frame (listeners : Listeners) (page : Page) :
    (dispatch listeners PageEvent.cardNumberInput page =
        { page with cardNumberInput :=
            (dispatch listeners PageEvent.cardNumberInput page).cardNumberInput } ∧
      (dispatch listeners PageEvent.cardNumberInput page).cardNumberInput =
        if listeners.cardNumberInput = true then page.cardNumberInput.map cardNumberInput_onInput
        else page.cardNumberInput) ∧
    (dispatch listeners PageEvent.cardExpiryInput page =
        { page with cardExpiryInput :=
            (dispatch listeners PageEvent.cardExpiryInput page).cardExpiryInput } ∧
      (dispatch listeners PageEvent.cardExpiryInput page).cardExpiryInput =
        if listeners.cardExpiryInput = true then page.cardExpiryInput.map cardExpiryInput_onInput
        else page.cardExpiryInput) ∧
    (dispatch listeners PageEvent.cardCvvInput page =
        { page with cardCvvInput :=
            (dispatch listeners PageEvent.cardCvvInput page).cardCvvInput } ∧
      (dispatch listeners PageEvent.cardCvvInput page).cardCvvInput =
        if listeners.cardCvvInput = true then page.cardCvvInput.map cardCvvInput_onInput
        else page.cardCvvInput) ∧
    (dispatch listeners PageEvent.fileChange page =
        { page with fileLabel := (dispatch listeners PageEvent.fileChange page).fileLabel } ∧
      (dispatch listeners PageEvent.fileChange page).fileLabel =
        if listeners.fileChange = true ∧ page.fileInput.isSome = true then
          page.fileLabel.map (fun labelText =>
            (fileInput_onChange { files := page.fileInput.getD [], labelText := labelText }).labelText)
        else page.fileLabel) ∧
    (∀ other : Page, listeners.fileChange = true → page.fileInput.isSome = true →
      other.fileInput = page.fileInput → other.fileLabel.isSome = page.fileLabel.isSome →
      (dispatch listeners PageEvent.fileChange other).fileLabel =
        (dispatch listeners PageEvent.fileChange page).fileLabel) := by
  obtain ⟨ls, lf, ln, le, lc⟩ := listeners
  obtain ⟨forms, fi, fp, fl, td, pf, cn, ce, cc⟩ := page
  refine ⟨⟨?_, ?_⟩, ⟨?_, ?_⟩, ⟨?_, ?_⟩, ⟨?_, ?_⟩, ?_⟩
  · cases ln <;> cases cn <;> rfl
  · cases ln <;> cases cn <;> rfl
  · cases le <;> cases ce <;> rfl
  · cases le <;> cases ce <;> rfl
  · cases lc <;> cases cc <;> rfl
  · cases lc <;> cases cc <;> rfl
  · cases lf <;> cases fi <;> cases fl <;> rfl
  · cases lf <;> cases fi <;> cases fl <;> simp [dispatch]
  · rintro ⟨forms2, fi2, fp2, fl2, td2, pf2, cn2, ce2, cc2⟩ hl hf h1 h2
    simp only at hl hf h1 h2
    subst h1 hl
    cases fi2 <;> cases fl <;> cases fl2 <;> simp at h2 hf <;>
      simp [dispatch, fileInput_onChange]

theorem handlers_frame_witness :
    (dispatch ⟨0, true, false, false, false⟩ PageEvent.fileChange
        { forms := [], fileInput := some [{ name := "report.pdf".toList }], filePreview := none,
          fileLabel := some "Choose file".toList, testDateInput := none, paymentForm := some (),
          cardNumberInput := some "1".toList, cardExpiryInput := none,
          cardCvvInput := none }).fileLabel =
      (dispatch ⟨0, true, false, false, false⟩ PageEvent.fileChange
        { forms := [], fileInput := some [{ name := "report.pdf".toList }], filePreview := none,
          fileLabel := some "old.txt".toList, testDateInput := none, paymentForm := none,
          cardNumberInput := none, cardExpiryInput := none, cardCvvInput := none }).fileLabel :=
  (handlers_frame ⟨0, true, false, false, false⟩
    { forms := [], fileInput := some [{ name := "report.pdf".toList }], filePreview := none,
      fileLabel := some "old.txt".toList, testDateInput := none, paymentForm := none,
      cardNumberInput := none, cardExpiryInput := none, cardCvvInput := none }).2.2.2.2
    { forms := [], fileInput := some [{ name := "report.pdf".toList }], filePreview := none,
      fileLabel := some "Choose file".toList, testDateInput := none, paymentForm := some (),
      cardNumberInput := some "1".toList, cardExpiryInput := none, cardCvvInput := none }
    rfl rfl rfl rfl

/-! ## The date range -/

theorem digitChar_toNat {k : Nat} (h : k < 10) : (Nat.digitChar k).toNat = 48 + k := by
  interval_cases k <;> rfl

theorem stringLt_append_same (p x y : JsString) : stringLt (p ++ x) (p ++ y) = stringLt x y := by
  induction p with
  | nil => rfl
  | cons c p ih => simp [stringLt, ih]

theorem stringLt_append_of_lt : ∀ (a b x y : JsString), a.length = b.length →
    stringLt a b = true → stringLt (a ++ x) (b ++ y) = true
  | [], [], _, _, _, h => by simp [stringLt] at h
  | [], _ :: _, _, _, hl, _ => by simp at hl
  | _ :: _, [], _, _, hl, _ => by simp at hl
  | a :: as, b :: bs, x, y, hl, h => by
    simp only [List.cons_append, stringLt, Bool.or_eq_true, Bool.and_eq_true,
      decide_eq_true_eq] at h ⊢
    rcases h with h | ⟨h1, h2⟩
    · exact Or.inl h
    · exact Or.inr ⟨h1, stringLt_append_of_lt as bs x y (by simpa using hl) h2⟩

theorem stringLt_twoDigits {m1 m2 : Nat} (h : m1 < m2) (h2 : m2 ≤ 99) :
    stringLt (twoDigits m1) (twoDigits m2) = true := by
  have a1 : (Nat.digitChar (m1 / 10)).toNat = 48 + m1 / 10 := digitChar_toNat (by omega)
  have a2 : (Nat.digitChar (m1 % 10)).toNat = 48 + m1 % 10 := digitChar_toNat (by omega)
  have b1 : (Nat.digitChar (m2 / 10)).toNat = 48 + m2 / 10 := digitChar_toNat (by omega)
  have b2 : (Nat.digitChar (m2 % 10)).toNat = 48 + m2 % 10 := digitChar_toNat (by omega)
  simp only [twoDigits, stringLt, Bool.or_eq_true, Bool.and_eq_true, decide_eq_true_eq,
    a1, a2, b1, b2]
  omega

theorem stringLt_fourDigits {y1 y2 : Nat} (h : y1 < y2) (h2 : y2 ≤ 9999) :
    stringLt (fourDigits y1) (fourDigits y2) = true := by
  have a1 : (Nat.digitChar (y1 / 1000)).toNat = 48 + y1 / 1000 := digitChar_toNat (by omega)
  have a2 : (Nat.digitChar (y1 / 100 % 10)).toNat = 48 + y1 / 100 % 10 :=
    digitChar_toNat (by omega)
  have a3 : (Nat.digitChar (y1 / 10 % 10)).toNat = 48 + y1 / 10 % 10 :=
    digitChar_toNat (by omega)
  have a4 : (Nat.digitChar (y1 % 10)).toNat = 48 + y1 % 10 := digitChar_toNat (by omega)
  have b1 : (Nat.digitChar (y2 / 1000)).toNat = 48 + y2 / 1000 := digitChar_toNat (by omega)
  have b2 : (Nat.digitChar (y2 / 100 % 10)).toNat = 48 + y2 / 100 % 10 :=
    digitChar_toNat (by omega)
  have b3 : (Nat.digitChar (y2 / 10 % 10)).toNat = 48 + y2 / 10 % 10 :=
    digitChar_toNat (by omega)
  have b4 : (Nat.digitChar (y2 % 10)).toNat = 48 + y2 % 10 := digitChar_toNat (by omega)
  simp only [fourDigits, stringLt, Bool.or_eq_true, Bool.and_eq_true, decide_eq_true_eq,
    a1, a2, a3, a4, b1, b2, b3, b4]
  omega

theorem stringLt_isoDates (y1 m1 d1 y2 m2 d2 : Nat) (hy2 : y2 ≤ 9999)
    (hm2 : m2 ≤ 99) (hd2 : d2 ≤ 99)
    (h : y1 < y2 ∨ (y1 = y2 ∧ (m1 < m2 ∨ (m1 = m2 ∧ d1 < d2)))) :
    stringLt (fourDigits y1 ++ '-' :: twoDigits m1 ++ '-' :: twoDigits d1)
      (fourDigits y2 ++ '-' :: twoDigits m2 ++ '-' :: twoDigits d2) = true := by
  rcases h with h | ⟨rfl, h | ⟨rfl, h⟩⟩
  · exact stringLt_append_of_lt _ _ _ _ rfl
      (stringLt_append_of_lt _ _ _ _ rfl (stringLt_fourDigits h hy2))
  · refine stringLt_append_of_lt _ _ _ _ (by simp [fourDigits, twoDigits]) ?_
    rw [stringLt_append_same]
    show stringLt (['-'] ++ twoDigits m1) (['-'] ++ twoDigits m2) = true
    rw [stringLt_append_same]
    exact stringLt_twoDigits h hm2
  · rw [stringLt_append_same]
    show stringLt (['-'] ++ twoDigits d1) (['-'] ++ twoDigits d2) = true
    rw [stringLt_append_same]
    exact stringLt_twoDigits h hd2

theorem yearFromDay_mono {day1 day2 : Int} (h : day1 ≤ day2) :
    yearFromDay day1 ≤ yearFromDay day2 :=
  (yearFromDay_largest day2 _).mp (le_trans (yearFromDay_spec day1).1 h)

theorem daysBeforeMonth_mono (m1 m2 leap : Int) (h0 : 0 ≤ m1) (h : m1 ≤ m2) (h11 : m2 ≤ 11)
    (hl : 0 ≤ leap) : daysBeforeMonth m1 leap ≤ daysBeforeMonth m2 leap := by
  unfold daysBeforeMonth
  omega

theorem yearDay_lt (w1 w2 leap : Int) (h0 : 0 ≤ w1) (h : w1 < w2) (hl0 : 0 ≤ leap) :
    monthOfYearDay w1 leap < monthOfYearDay w2 leap ∨
      (monthOfYearDay w1 leap = monthOfYearDay w2 leap ∧
        dateOfYearDay w1 leap < dateOfYearDay w2 leap) := by
  obtain ⟨ha0, ha11⟩ := monthOfYearDay_range w1 leap
  obtain ⟨hb0, hb11⟩ := monthOfYearDay_range w2 leap
  have hlo1 := daysBeforeMonth_le w1 leap h0
  have hhi2 := lt_daysBeforeMonth_succ w2 leap
  rw [dateOfYearDay_eq w1 leap, dateOfYearDay_eq w2 leap]
  generalize monthOfYearDay w1 leap = m1 at *
  generalize monthOfYearDay w2 leap = m2 at *
  rcases lt_trichotomy m1 m2 with hlt | heq | hgt
  · exact Or.inl hlt
  · subst heq
    exact Or.inr ⟨rfl, by omega⟩
  · exfalso
    have h1 := hhi2 (by omega)
    have h2 := daysBeforeMonth_mono (m2 + 1) m1 leap (by omega) (by omega) ha11 hl0
    omega

theorem Day_add_days (t : Int) (n : Nat) : Day (t + n * msPerDay) = Day t + n := by
  unfold Day msPerDay
  omega

/-- A time value on a later day shows a later calendar day. -/
theorem calendarBefore_of_Day_lt {t1 t2 : Int} (h : Day t1 < Day t2) :
    calendarBefore (calendarOf t1) (calendarOf t2) := by
  have hy := yearFromDay_mono (le_of_lt h)
  show YearFromTime t1 < YearFromTime t2 ∨ (YearFromTime t1 = YearFromTime t2 ∧
    (MonthFromTime t1 + 1 < MonthFromTime t2 + 1 ∨
      (MonthFromTime t1 + 1 = MonthFromTime t2 + 1 ∧ DateFromTime t1 < DateFromTime t2)))
  rcases eq_or_lt_of_le hy with heq | hlt
  · right
    have heq2 : YearFromTime t1 = YearFromTime t2 := heq
    refine ⟨heq2, ?_⟩
    have hleap : InLeapYear t1 = InLeapYear t2 := by
      unfold InLeapYear
      rw [heq2]
    have hw : DayWithinYear t1 < DayWithinYear t2 := by
      unfold DayWithinYear
      rw [heq2]
      omega
    have hl0 : 0 ≤ InLeapYear t2 := by
      unfold InLeapYear
      split <;> omega
    have := yearDay_lt (DayWithinYear t1) (DayWithinYear t2) (InLeapYear t2)
      (DayWithinYear_range t1).1 hw hl0
    unfold MonthFromTime DateFromTime
    rw [hleap]
    omega
  · exact Or.inl hlt

theorem YearFromTime_add_days (t : Int) (n : Nat) (hn : n ≤ 365) :
    YearFromTime t ≤ YearFromTime (t + n * msPerDay) ∧
      YearFromTime (t + n * msPerDay) ≤ YearFromTime t + 1 := by
  unfold YearFromTime
  rw [Day_add_days]
  constructor
  · exact yearFromDay_mono (by omega)
  · by_contra hgt
    have h2 : yearFromDay (Day t) + 1 + 1 ≤ yearFromDay (Day t + n) := by omega
    have h3 := (yearFromDay_largest (Day t + n) _).mpr h2
    have h4 := (yearFromDay_spec (Day t)).2
    rw [DayFromYear_succ] at h3
    have h5 : 365 ≤ DaysInYear (yearFromDay (Day t) + 1) := by
      unfold DaysInYear
      omega
    omega

set_option maxRecDepth 8000 in
/-- C15 as stated fails in two ways.  On 1 December 9999 (UTC) `min` is `9999-12-08` and
`max` is `10000-01-30`, and as strings the first is not less than the second.  In the zone
`Pacific/Apia`, whose calendar has no 30 December 2011, `today` 2011-12-23 gives `min`
2011-12-31 and `max` 2012-02-21, while 53 calendar days after 2011-12-31 is 2012-02-22. -/
theorem testDate_range_counterexample :
    (initTestDate (TimeZone.fixed 0) (Date.ofComponents (TimeZone.fixed 0) 9999 11 1)
        (some ⟨none, none⟩) =
      some ⟨some "9999-12-08".toList, some "10000-01-30".toList⟩ ∧
      stringLt "9999-12-08".toList "10000-01-30".toList = false) ∧
    (initTestDate TimeZone.apia2011 (Date.ofComponents TimeZone.apia2011 2011 11 23)
        (some ⟨none, none⟩) =
      some ⟨some "2011-12-31".toList, some "2012-02-21".toList⟩ ∧
      addDays 53 ⟨2011, 12, 31⟩ = ⟨2012, 2, 22⟩) := by
  refine ⟨⟨?_, ?_⟩, ?_, ?_⟩
  · rfl
  · decide
  · rfl
  · rfl

/-- C15 (amended). The date range is well-formed: for every time zone and every valid
`today`, if the local times 7 and 60 days after today's local time are shown by the zone's
clocks (not skipped by a clock change) and lie within the range of `Date`, then `min` and
`max` are `formatDate` of two valid dates of which the second falls exactly 53 calendar
days after the first, so the first is strictly earlier, as a local time and as a calendar
day; and when moreover the year of `today` is in 1000..9998, so that both bounds have a
four-digit year, the `min` string is strictly less than the `max` string in lexicographic
order. -/
theorem testDate_range_wellFormed (tz : TimeZone) (now : Int) (input : DateInput)
    (hnow : TimeClip now = some now)
    (hmin : tz.shows (LocalTime tz now + 7 * msPerDay))
    (hmax : tz.shows (LocalTime tz now + 60 * msPerDay)) :
    ∃ (minDate maxDate : Date) (minTime maxTime : Int) (minDay : CalendarDate),
      initTestDate tz (Date.ofTimeValue now) (some input) =
        some { min := some (formatDate tz minDate), max := some (formatDate tz maxDate) } ∧
      minDate.timeValue = some minTime ∧ maxDate.timeValue = some maxTime ∧
      LocalTime tz minTime < LocalTime tz maxTime ∧
      minDate.calendarDate tz = some minDay ∧
      maxDate.calendarDate tz = some (addDays 53 minDay) ∧
      calendarBefore minDay (addDays 53 minDay) ∧
      (∀ year, (Date.ofTimeValue now).getFullYear tz = some year → 1000 ≤ year → year ≤ 9998 →
        stringLt (formatDate tz minDate) (formatDate tz maxDate) = true) := by
  have hinit := initTestDate_valid tz now input hnow hmin hmax
  have hsum : LocalTime tz now + 60 * msPerDay =
      (LocalTime tz now + 7 * msPerDay) + ((53 : Nat) : Int) * msPerDay := by
    unfold msPerDay
    omega
  have h53 : calendarOf (LocalTime tz now + 60 * msPerDay) =
      addDays 53 (calendarOf (LocalTime tz now + 7 * msPerDay)) := by
    rw [hsum]
    exact calendarOf_add_days 53 _
  have hday : Day (LocalTime tz now + 7 * msPerDay) < Day (LocalTime tz now + 60 * msPerDay) := by
    have h1 := Day_add_days (LocalTime tz now) 7
    have h2 := Day_add_days (LocalTime tz now) 60
    have e1 : (((7 : Nat) : Int)) = 7 := rfl
    have e2 : (((60 : Nat) : Int)) = 60 := rfl
    rw [e1] at h1
    rw [e2] at h2
    omega
  have hbefore := calendarBefore_of_Day_lt hday
  refine ⟨_, _, _, _, calendarOf (LocalTime tz now + 7 * msPerDay), hinit, rfl, rfl, ?_, ?_, ?_,
    ?_, ?_⟩
  · rw [hmin.2, hmax.2]
    unfold msPerDay
    omega
  · show some (calendarOf (LocalTime tz (UTC tz (LocalTime tz now + 7 * msPerDay)))) = _
    rw [hmin.2]
  · show some (calendarOf (LocalTime tz (UTC tz (LocalTime tz now + 60 * msPerDay)))) = _
    rw [hmax.2, h53]
  · rw [← h53]
    exact hbefore
  · intro year hyear hy1 hy2
    have hy : YearFromTime (LocalTime tz now) = year := by
      unfold Date.ofTimeValue Date.getFullYear at hyear
      rw [hnow] at hyear
      exact Option.some.inj hyear
    have hminY := YearFromTime_add_days (LocalTime tz now) 7 (by omega)
    have hmaxY := YearFromTime_add_days (LocalTime tz now) 60 (by omega)
    have e1 : (((7 : Nat) : Int)) = 7 := rfl
    have e2 : (((60 : Nat) : Int)) = 60 := rfl
    rw [e1] at hminY
    rw [e2] at hmaxY
    have hm1 := MonthFromTime_range (LocalTime tz now + 7 * msPerDay)
    have hm2 := MonthFromTime_range (LocalTime tz now + 60 * msPerDay)
    have hd1 := DateFromTime_range (LocalTime tz now + 7 * msPerDay)
    have hd2 := DateFromTime_range (LocalTime tz now + 60 * msPerDay)
    rw [formatDate_valid, formatDate_valid, hmin.2, hmax.2,
      numberToString_fourDigits (by omega) (by omega),
      numberToString_fourDigits (by omega) (by omega)]
    apply stringLt_isoDates
    · omega
    · omega
    · omega
    · unfold calendarBefore calendarOf at hbefore
      simp only at hbefore
      omega

theorem testDate_range_wellFormed_witness :
    stringLt "2024-02-04".toList "2024-03-28".toList = true := by
  obtain ⟨minDate, maxDate, _, _, _, hinit, _, _, _, _, _, _, hlt⟩ :=
    testDate_range_wellFormed (TimeZone.fixed 0) 1706443200000 ⟨none, none⟩ (by decide)
      (by decide) (by decide)
  have h := hlt 2024 (by decide) (by decide) (by decide)
  have hsample : initTestDate (TimeZone.fixed 0) (Date.ofTimeValue 1706443200000)
      (some ⟨none, none⟩) = some ⟨some "2024-02-04".toList, some "2024-03-28".toList⟩ := by rfl
  rw [hsample] at hinit
  simp only [Option.some.injEq, DateInput.mk.injEq] at hinit
  rw [← hinit.1, ← hinit.2] at h
  exact h

end SmartDL

